import Mathlib

/-!
# chezmoi: actual state entries, state commands and utilities

A shallow embedding of `internal/chezmoi/actualstateentry.go`, of the `state` commands of
`cmd/statecmd.go` and of the string and data utilities of `cmd/util.go`.

Go values are modelled as follows.

* `os.FileMode` (a `uint32`) is a `Nat`; only `&` and `|` with constants are applied to it.
* `[]byte` is `List UInt8`, the nil slice being `[]`.
* An `error` is an `Option GoError`, `none` being the nil error.
* A `System` is a record of transition functions over an implementation state `σ`;
  every call made through the interface is appended to the `trace` of the `World`.
* Pointer receivers whose cell is mutated (`*lazyContents`, `*lazyLinkname`) are passed
  explicitly: a method returns the updated receiver next to its Go results.
-/

namespace Chezmoi

/-! ## Go standard library: `os.FileMode` -/

/-- Go `os.FileMode`. -/
abbrev FileMode := Nat

/-- Go `os.ModeDir`: `d`, is a directory. -/
def os.ModeDir : FileMode := 1 <<< 31
/-- Go `os.ModeAppend`: `a`, append-only. -/
def os.ModeAppend : FileMode := 1 <<< 30
/-- Go `os.ModeExclusive`: `l`, exclusive use. -/
def os.ModeExclusive : FileMode := 1 <<< 29
/-- Go `os.ModeTemporary`: `T`, temporary file. -/
def os.ModeTemporary : FileMode := 1 <<< 28
/-- Go `os.ModeSymlink`: `L`, symbolic link. -/
def os.ModeSymlink : FileMode := 1 <<< 27
/-- Go `os.ModeDevice`: `D`, device file. -/
def os.ModeDevice : FileMode := 1 <<< 26
/-- Go `os.ModeNamedPipe`: `p`, named pipe (FIFO). -/
def os.ModeNamedPipe : FileMode := 1 <<< 25
/-- Go `os.ModeSocket`: `S`, Unix domain socket. -/
def os.ModeSocket : FileMode := 1 <<< 24
/-- Go `os.ModeSetuid`: `u`, setuid. -/
def os.ModeSetuid : FileMode := 1 <<< 23
/-- Go `os.ModeSetgid`: `g`, setgid. -/
def os.ModeSetgid : FileMode := 1 <<< 22
/-- Go `os.ModeCharDevice`: `c`, Unix character device, when `ModeDevice` is set. -/
def os.ModeCharDevice : FileMode := 1 <<< 21
/-- Go `os.ModeSticky`: `t`, sticky. -/
def os.ModeSticky : FileMode := 1 <<< 20
/-- Go `os.ModeIrregular`: `?`, non-regular file; nothing else is known about this file. -/
def os.ModeIrregular : FileMode := 1 <<< 19

/-- Go `os.ModeType`: mask for the type bits. -/
def os.ModeType : FileMode :=
  os.ModeDir ||| os.ModeSymlink ||| os.ModeNamedPipe ||| os.ModeSocket ||| os.ModeDevice |||
    os.ModeCharDevice ||| os.ModeIrregular

/-- Go `os.ModePerm`: Unix permission bits, `0o777`. -/
def os.ModePerm : FileMode := 0o777

/-! ## Paths, errors, file infos -/

/-- Modelled from the spec: `AbsPath`, an absolute, normalized filesystem path, declared
outside `actualstateentry.go`. In Go it is a string type. -/
abbrev AbsPath := String

/-- Go `error` values, as far as this code can tell them apart: `os.IsNotExist` holds of
`notExist` only, and `errUnsupportedFileType` is the error type this package builds. -/
inductive GoError where
  | notExist (msg : String)
  | other (msg : String)
  | errUnsupportedFileType (absPath : AbsPath) (mode : FileMode)
deriving DecidableEq, Repr

/-- Go `os.IsNotExist`; it is false of the nil error. -/
def os.IsNotExist : Option GoError → Bool
  | some (GoError.notExist _) => true
  | _ => false

/-- Go `os.FileInfo`, of which only `Mode()` is consulted. -/
structure FileInfo where
  Mode : FileMode
deriving DecidableEq, Repr

/-! ## The `System` capability -/

/-- A call made through the `System` interface. -/
inductive SystemCall where
  | Lstat (name : AbsPath)
  | Stat (name : AbsPath)
  | ReadFile (name : AbsPath)
  | Readlink (name : AbsPath)
  | RemoveAll (name : AbsPath)
deriving DecidableEq, Repr

/-- Modelled from the spec: the `System` interface, declared outside `actualstateentry.go`,
with the minimal surface `Lstat`, `Stat`, `ReadFile`, `Readlink`, `RemoveAll`. An
implementation acts on its own state `σ`. A Go `(value, error)` result is a pair, since an
interface implementation may set both components. -/
structure System (σ : Type) where
  Lstat : AbsPath → σ → (Option FileInfo × Option GoError) × σ
  Stat : AbsPath → σ → (Option FileInfo × Option GoError) × σ
  ReadFile : AbsPath → σ → (List UInt8 × Option GoError) × σ
  Readlink : AbsPath → σ → (String × Option GoError) × σ
  RemoveAll : AbsPath → σ → Option GoError × σ

/-- The implementation state together with the calls made so far, oldest first. -/
structure World (σ : Type) where
  state : σ
  trace : List SystemCall

/-- The call `system.Lstat(name)`. -/
def System.callLstat {σ : Type} (system : System σ) (name : AbsPath) (w : World σ) :
    (Option FileInfo × Option GoError) × World σ :=
  ((system.Lstat name w.state).1,
    ⟨(system.Lstat name w.state).2, w.trace ++ [SystemCall.Lstat name]⟩)

/-- The call `system.ReadFile(name)`. -/
def System.callReadFile {σ : Type} (system : System σ) (name : AbsPath) (w : World σ) :
    (List UInt8 × Option GoError) × World σ :=
  ((system.ReadFile name w.state).1,
    ⟨(system.ReadFile name w.state).2, w.trace ++ [SystemCall.ReadFile name]⟩)

/-- The call `system.Readlink(name)`. -/
def System.callReadlink {σ : Type} (system : System σ) (name : AbsPath) (w : World σ) :
    (String × Option GoError) × World σ :=
  ((system.Readlink name w.state).1,
    ⟨(system.Readlink name w.state).2, w.trace ++ [SystemCall.Readlink name]⟩)

/-- The call `system.RemoveAll(name)`. -/
def System.callRemoveAll {σ : Type} (system : System σ) (name : AbsPath) (w : World σ) :
    Option GoError × World σ :=
  ((system.RemoveAll name w.state).1,
    ⟨(system.RemoveAll name w.state).2, w.trace ++ [SystemCall.RemoveAll name]⟩)

/-! ## Lazy cells -/

/-- Modelled from the spec: the Lazy Cell, a memoization wrapper over a zero-argument fallible
fetch function, with states `uncomputed`, `succeeded(value)` and `failed(error)`. It stands
for `lazyContents` and `lazyLinkname`, which are declared outside `actualstateentry.go`. -/
inductive LazyCell (σ : Type) (α : Type) where
  | uncomputed (fetch : World σ → (α × Option GoError) × World σ)
  | succeeded (value : α)
  | failed (err : GoError)

/-- Modelled from the spec: `value, err := cell.Get()`. The first call invokes the wrapped fetch
and caches the returned value or error; every later call returns the cached result. -/
def LazyCell.Get {σ α : Type} (cell : LazyCell σ α) (w : World σ) :
    Except GoError α × LazyCell σ α × World σ :=
  match cell with
  | LazyCell.uncomputed fetch =>
    match (fetch w).1.2 with
    | none => (Except.ok (fetch w).1.1, LazyCell.succeeded (fetch w).1.1, (fetch w).2)
    | some e => (Except.error e, LazyCell.failed e, (fetch w).2)
  | LazyCell.succeeded value => (Except.ok value, LazyCell.succeeded value, w)
  | LazyCell.failed e => (Except.error e, LazyCell.failed e, w)

/-- Modelled from the spec: the lazy content cell of a file, caching its bytes. -/
abbrev lazyContents (σ : Type) := LazyCell σ (List UInt8)

/-- Modelled from the spec: the lazy linkname cell of a symlink, caching its target string. -/
abbrev lazyLinkname (σ : Type) := LazyCell σ String

/-- Modelled from the spec: a lazy content cell bound to a fetch function. -/
def newLazyContentsFunc {σ : Type}
    (contentsFunc : World σ → (List UInt8 × Option GoError) × World σ) : lazyContents σ :=
  LazyCell.uncomputed contentsFunc

/-- Modelled from the spec: a lazy linkname cell bound to a fetch function. -/
def newLazyLinknameFunc {σ : Type}
    (linknameFunc : World σ → (String × Option GoError) × World σ) : lazyLinkname σ :=
  LazyCell.uncomputed linknameFunc

/-- Go `[]byte(s)`: the UTF-8 bytes of a string. -/
def bytesOfString (s : String) : List UInt8 :=
  s.data.flatMap String.utf8EncodeChar

/-- Modelled from the spec: `Contents()` forces the lazy content cell. -/
def lazyContents.Contents {σ : Type} (lc : lazyContents σ) (w : World σ) :
    Except GoError (List UInt8) × lazyContents σ × World σ :=
  LazyCell.Get lc w

/-- Modelled from the spec: `ContentsSHA256()` forces the lazy content cell and returns the
SHA-256 of the bytes, or the fetch error. The hash function `SHA256Sum` is a parameter. -/
def lazyContents.ContentsSHA256 {σ : Type} (SHA256Sum : List UInt8 → List UInt8)
    (lc : lazyContents σ) (w : World σ) :
    Except GoError (List UInt8) × lazyContents σ × World σ :=
  match LazyCell.Get lc w with
  | (Except.ok contents, lc1, w1) => (Except.ok (SHA256Sum contents), lc1, w1)
  | (Except.error e, lc1, w1) => (Except.error e, lc1, w1)

/-- Modelled from the spec: `Linkname()` forces the lazy linkname cell. -/
def lazyLinkname.Linkname {σ : Type} (ll : lazyLinkname σ) (w : World σ) :
    Except GoError String × lazyLinkname σ × World σ :=
  LazyCell.Get ll w

/-- Modelled from the spec: `LinknameSHA256()` forces the lazy linkname cell and returns the
SHA-256 of the UTF-8 target string, or the fetch error. -/
def lazyLinkname.LinknameSHA256 {σ : Type} (SHA256Sum : List UInt8 → List UInt8)
    (ll : lazyLinkname σ) (w : World σ) :
    Except GoError (List UInt8) × lazyLinkname σ × World σ :=
  match LazyCell.Get ll w with
  | (Except.ok linkname, ll1, w1) => (Except.ok (SHA256Sum (bytesOfString linkname)), ll1, w1)
  | (Except.error e, ll1, w1) => (Except.error e, ll1, w1)

/-! ## Entry states -/

/-- Modelled from the spec: `EntryStateType`, the closed enumeration `Remove`, `Dir`, `File`,
`Symlink`, declared outside `actualstateentry.go`. -/
inductive EntryStateType where
  | Remove
  | Dir
  | File
  | Symlink
deriving DecidableEq, Repr

/-- Modelled from the spec: `EntryState`, with the fields the source assigns: `Type` (here
`type`), `Mode`, `ContentsSHA256` and `contents`. An omitted field has its zero value. -/
structure EntryState where
  type : EntryStateType
  Mode : FileMode := 0
  ContentsSHA256 : List UInt8 := []
  contents : List UInt8 := []
deriving DecidableEq, Repr

/-! ## Actual state entries -/

/-- A ActualStateAbsent represents the absence of an entry in the filesystem. -/
structure ActualStateAbsent where
  absPath : AbsPath

/-- A ActualStateDir represents the state of a directory in the filesystem. -/
structure ActualStateDir where
  absPath : AbsPath
  perm : FileMode

/-- A ActualStateFile represents the state of a file in the filesystem. -/
structure ActualStateFile (σ : Type) where
  absPath : AbsPath
  perm : FileMode
  lazyContents : Chezmoi.lazyContents σ

/-- A ActualStateSymlink represents the state of a symlink in the filesystem. -/
structure ActualStateSymlink (σ : Type) where
  absPath : AbsPath
  lazyLinkname : Chezmoi.lazyLinkname σ

/-- The interface `ActualStateEntry`: one of the four concrete types. -/
inductive ActualStateEntry (σ : Type) where
  | Absent (s : ActualStateAbsent)
  | Dir (s : ActualStateDir)
  | File (s : ActualStateFile σ)
  | Symlink (s : ActualStateSymlink σ)

/-- What a Go function with results `(value, error)` does: it returns a pair, either of which
may be nil, or it panics on a nil dereference. -/
inductive Outcome (α : Type) where
  | ret (value : Option α) (err : Option GoError)
  | nilDeref

/-- NewActualStateEntry returns a new ActualStateEntry populated with absPath from fs. -/
def NewActualStateEntry {σ : Type} (system : System σ) (absPath : AbsPath)
    (info : Option FileInfo) (err : Option GoError) (w : World σ) :
    Outcome (ActualStateEntry σ) × World σ :=
  let r : (Option FileInfo × Option GoError) × World σ :=
    match info with
    | none => system.callLstat absPath w
    | some _ => ((info, err), w)
  if os.IsNotExist r.1.2 then
    (Outcome.ret (some (ActualStateEntry.Absent ⟨absPath⟩)) none, r.2)
  else
    match r.1.2 with
    | some e => (Outcome.ret none (some e), r.2)
    | none =>
      match r.1.1 with
      | none => (Outcome.nilDeref, r.2)
      | some fi =>
        if fi.Mode &&& os.ModeType = 0 then
          (Outcome.ret (some (ActualStateEntry.File
            ⟨absPath, fi.Mode &&& os.ModePerm,
              newLazyContentsFunc (fun w1 => system.callReadFile absPath w1)⟩)) none, r.2)
        else if fi.Mode &&& os.ModeType = os.ModeDir then
          (Outcome.ret (some (ActualStateEntry.Dir ⟨absPath, fi.Mode &&& os.ModePerm⟩)) none, r.2)
        else if fi.Mode &&& os.ModeType = os.ModeSymlink then
          (Outcome.ret (some (ActualStateEntry.Symlink
            ⟨absPath, newLazyLinknameFunc (fun w1 => system.callReadlink absPath w1)⟩)) none, r.2)
        else
          (Outcome.ret none (some (GoError.errUnsupportedFileType absPath fi.Mode)), r.2)

/-- EntryState returns d's entry state. -/
def ActualStateAbsent.EntryState (_s : ActualStateAbsent) : Option EntryState × Option GoError :=
  (some { type := EntryStateType.Remove }, none)

/-- Path returns d's path. -/
def ActualStateAbsent.Path (s : ActualStateAbsent) : AbsPath :=
  s.absPath

/-- Remove removes d. -/
def ActualStateAbsent.Remove {σ : Type} (_s : ActualStateAbsent) (_system : System σ)
    (w : World σ) : Option GoError × World σ :=
  (none, w)

/-- EntryState returns d's entry state. -/
def ActualStateDir.EntryState (s : ActualStateDir) : Option EntryState × Option GoError :=
  (some { type := EntryStateType.Dir, Mode := os.ModeDir ||| s.perm }, none)

/-- Path returns d's path. -/
def ActualStateDir.Path (s : ActualStateDir) : AbsPath :=
  s.absPath

/-- Remove removes d. -/
def ActualStateDir.Remove {σ : Type} (s : ActualStateDir) (system : System σ) (w : World σ) :
    Option GoError × World σ :=
  system.callRemoveAll s.absPath w

/-- EntryState returns d's entry state. The receiver is returned with its updated cell. -/
def ActualStateFile.EntryState {σ : Type} (SHA256Sum : List UInt8 → List UInt8)
    (s : ActualStateFile σ) (w : World σ) :
    (Option EntryState × Option GoError) × ActualStateFile σ × World σ :=
  match lazyContents.Contents s.lazyContents w with
  | (Except.error e, lc1, w1) => ((none, some e), { s with lazyContents := lc1 }, w1)
  | (Except.ok contents, lc1, w1) =>
    match lazyContents.ContentsSHA256 SHA256Sum lc1 w1 with
    | (Except.error e, lc2, w2) => ((none, some e), { s with lazyContents := lc2 }, w2)
    | (Except.ok contentsSHA256, lc2, w2) =>
      ((some { type := EntryStateType.File, Mode := s.perm, ContentsSHA256 := contentsSHA256,
               contents := contents }, none),
        { s with lazyContents := lc2 }, w2)

/-- Path returns d's path. -/
def ActualStateFile.Path {σ : Type} (s : ActualStateFile σ) : AbsPath :=
  s.absPath

/-- Remove removes d. -/
def ActualStateFile.Remove {σ : Type} (s : ActualStateFile σ) (system : System σ)
    (w : World σ) : Option GoError × World σ :=
  system.callRemoveAll s.absPath w

/-- EntryState returns d's entry state. The receiver is returned with its updated cell. -/
def ActualStateSymlink.EntryState {σ : Type} (SHA256Sum : List UInt8 → List UInt8)
    (s : ActualStateSymlink σ) (w : World σ) :
    (Option EntryState × Option GoError) × ActualStateSymlink σ × World σ :=
  match lazyLinkname.Linkname s.lazyLinkname w with
  | (Except.error e, ll1, w1) => ((none, some e), { s with lazyLinkname := ll1 }, w1)
  | (Except.ok linkname, ll1, w1) =>
    match lazyLinkname.LinknameSHA256 SHA256Sum ll1 w1 with
    | (Except.error e, ll2, w2) => ((none, some e), { s with lazyLinkname := ll2 }, w2)
    | (Except.ok linknameSHA256, ll2, w2) =>
      ((some { type := EntryStateType.Symlink, ContentsSHA256 := linknameSHA256,
               contents := bytesOfString linkname }, none),
        { s with lazyLinkname := ll2 }, w2)

/-- Path returns d's path. -/
def ActualStateSymlink.Path {σ : Type} (s : ActualStateSymlink σ) : AbsPath :=
  s.absPath

/-- Remove removes d. -/
def ActualStateSymlink.Remove {σ : Type} (s : ActualStateSymlink σ) (system : System σ)
    (w : World σ) : Option GoError × World σ :=
  system.callRemoveAll s.absPath w

/-- The interface method `EntryState()`, dispatched on the concrete type. -/
def ActualStateEntry.EntryState {σ : Type} (SHA256Sum : List UInt8 → List UInt8)
    (entry : ActualStateEntry σ) (w : World σ) :
    (Option EntryState × Option GoError) × ActualStateEntry σ × World σ :=
  match entry with
  | ActualStateEntry.Absent s => (s.EntryState, ActualStateEntry.Absent s, w)
  | ActualStateEntry.Dir s => (s.EntryState, ActualStateEntry.Dir s, w)
  | ActualStateEntry.File s =>
    ((s.EntryState SHA256Sum w).1, ActualStateEntry.File (s.EntryState SHA256Sum w).2.1,
      (s.EntryState SHA256Sum w).2.2)
  | ActualStateEntry.Symlink s =>
    ((s.EntryState SHA256Sum w).1, ActualStateEntry.Symlink (s.EntryState SHA256Sum w).2.1,
      (s.EntryState SHA256Sum w).2.2)

/-- The interface method `Path()`, dispatched on the concrete type. -/
def ActualStateEntry.Path {σ : Type} (entry : ActualStateEntry σ) : AbsPath :=
  match entry with
  | ActualStateEntry.Absent s => s.Path
  | ActualStateEntry.Dir s => s.Path
  | ActualStateEntry.File s => s.Path
  | ActualStateEntry.Symlink s => s.Path

/-- The interface method `Remove(system)`, dispatched on the concrete type. -/
def ActualStateEntry.Remove {σ : Type} (entry : ActualStateEntry σ) (system : System σ)
    (w : World σ) : Option GoError × World σ :=
  match entry with
  | ActualStateEntry.Absent s => s.Remove system w
  | ActualStateEntry.Dir s => s.Remove system w
  | ActualStateEntry.File s => s.Remove system w
  | ActualStateEntry.Symlink s => s.Remove system w

/-! ## Vocabulary of the statements -/

/-- The inspection result `NewActualStateEntry` acts on: the supplied `info`/`err` pair when
`info` is non-nil, otherwise the result of `system.Lstat(absPath)`. -/
def inspection {σ : Type} (system : System σ) (absPath : AbsPath) (info : Option FileInfo)
    (err : Option GoError) (w : World σ) : Option FileInfo × Option GoError :=
  match info with
  | some fi => (some fi, err)
  | none => (system.Lstat absPath w.state).1

/-- The decision `NewActualStateEntry` takes on an inspection result. -/
def dispatch {σ : Type} (system : System σ) (absPath : AbsPath)
    (r : Option FileInfo × Option GoError) : Outcome (ActualStateEntry σ) :=
  if os.IsNotExist r.2 then
    Outcome.ret (some (ActualStateEntry.Absent ⟨absPath⟩)) none
  else
    match r.2 with
    | some e => Outcome.ret none (some e)
    | none =>
      match r.1 with
      | none => Outcome.nilDeref
      | some fi =>
        if fi.Mode &&& os.ModeType = 0 then
          Outcome.ret (some (ActualStateEntry.File
            ⟨absPath, fi.Mode &&& os.ModePerm,
              newLazyContentsFunc (fun w1 => system.callReadFile absPath w1)⟩)) none
        else if fi.Mode &&& os.ModeType = os.ModeDir then
          Outcome.ret (some (ActualStateEntry.Dir ⟨absPath, fi.Mode &&& os.ModePerm⟩)) none
        else if fi.Mode &&& os.ModeType = os.ModeSymlink then
          Outcome.ret (some (ActualStateEntry.Symlink
            ⟨absPath, newLazyLinknameFunc (fun w1 => system.callReadlink absPath w1)⟩)) none
        else
          Outcome.ret none (some (GoError.errUnsupportedFileType absPath fi.Mode))

/-- A sequence of `EntryState()` calls on one entry, one call per element of `changes`; after
each call the environment changes the state of the system by the corresponding function. The
results are returned in call order, with the entry and the world after the last call. -/
def entryStateCalls {σ : Type} (SHA256Sum : List UInt8 → List UInt8)
    (entry : ActualStateEntry σ) (w : World σ) :
    List (σ → σ) → List (Option EntryState × Option GoError) × ActualStateEntry σ × World σ
  | [] => ([], entry, w)
  | change :: changes =>
    ((entry.EntryState SHA256Sum w).1 ::
        (entryStateCalls SHA256Sum (entry.EntryState SHA256Sum w).2.1
          ⟨change (entry.EntryState SHA256Sum w).2.2.state,
            (entry.EntryState SHA256Sum w).2.2.trace⟩ changes).1,
      (entryStateCalls SHA256Sum (entry.EntryState SHA256Sum w).2.1
          ⟨change (entry.EntryState SHA256Sum w).2.2.state,
            (entry.EntryState SHA256Sum w).2.2.trace⟩ changes).2)

/-- A node of the in-memory filesystem used in the examples. -/
structure MemNode where
  mode : FileMode
  contents : List UInt8
  linkname : String
deriving DecidableEq

/-- An in-memory filesystem: an association list from paths to nodes. -/
abbrev MemFS := List (AbsPath × MemNode)

/-- A `System` over the in-memory filesystem. The path `/root` cannot be inspected or removed,
and reading a directory fails. -/
def memSystem : System MemFS where
  Lstat name fs :=
    if name = "/root" then ((none, some (GoError.other "permission denied")), fs)
    else match fs.lookup name with
      | some n => ((some ⟨n.mode⟩, none), fs)
      | none => ((none, some (GoError.notExist "no such file or directory")), fs)
  Stat name fs :=
    if name = "/root" then ((none, some (GoError.other "permission denied")), fs)
    else match fs.lookup name with
      | some n => ((some ⟨n.mode⟩, none), fs)
      | none => ((none, some (GoError.notExist "no such file or directory")), fs)
  ReadFile name fs :=
    match fs.lookup name with
    | some n =>
      if n.mode &&& os.ModeType = 0 then ((n.contents, none), fs)
      else (([], some (GoError.other "is a directory")), fs)
    | none => (([], some (GoError.notExist "no such file or directory")), fs)
  Readlink name fs :=
    match fs.lookup name with
    | some n =>
      if n.mode &&& os.ModeType = os.ModeSymlink then ((n.linkname, none), fs)
      else (("", some (GoError.other "invalid argument")), fs)
    | none => (("", some (GoError.notExist "no such file or directory")), fs)
  RemoveAll name fs :=
    if name = "/root" then (some (GoError.other "permission denied"), fs)
    else (none, fs.filter (fun e => e.1 != name))

/-- An example filesystem: a regular file, a setgid directory, a symlink and a named pipe. -/
def memFS : MemFS :=
  [("/f", ⟨0o644, [104, 105], ""⟩),
   ("/d", ⟨os.ModeDir ||| os.ModeSetgid ||| 0o755, [], ""⟩),
   ("/l", ⟨os.ModeSymlink ||| 0o777, [], "f"⟩),
   ("/p", ⟨os.ModeNamedPipe ||| 0o600, [], ""⟩)]

/-- The example filesystem before any call. -/
def memWorld : World MemFS := ⟨memFS, []⟩

/-- A stand-in for the hash function in the examples: the length of the input. -/
def lengthSum (data : List UInt8) : List UInt8 := [UInt8.ofNat data.length]

end Chezmoi

/-! ## The `state` commands: `cmd/statecmd.go` -/

namespace Chezmoi

/-- The call `system.Stat(name)`. -/
def System.callStat {σ : Type} (system : System σ) (name : AbsPath) (w : World σ) :
    (Option FileInfo × Option GoError) × World σ :=
  ((system.Stat name w.state).1,
    ⟨(system.Stat name w.state).2, w.trace ++ [SystemCall.Stat name]⟩)

/-- A Go `map[κ]ν`: a finite map with unique keys. -/
abbrev GoMap (κ ν : Type) := AList (fun _ : κ => ν)

/-- The flags of `state data`. -/
structure stateDataCmdConfig where
  format : String

/-- The flags of `state delete`. -/
structure stateDeleteCmdConfig where
  bucket : String
  key : String

/-- The flags of `state dump`. -/
structure stateDumpCmdConfig where
  format : String

/-- The flags of `state get`. -/
structure stateGetCmdConfig where
  bucket : String
  key : String

/-- The flags of `state set`. -/
structure stateSetCmdConfig where
  bucket : String
  key : String
  value : String

/-- The flags of the `state` commands. -/
structure stateCmdConfig where
  data : stateDataCmdConfig
  delete : stateDeleteCmdConfig
  dump : stateDumpCmdConfig
  get : stateGetCmdConfig
  set : stateSetCmdConfig

/-- The world of a command: the system with its call trace, and the prompts issued so far,
oldest first, each with its text and the choices it offered. -/
structure CmdWorld (σ : Type) where
  world : World σ
  prompts : List (String × List String)

/-- Modelled from the spec: the part of `Config` that the `state` commands use, declared outside
`statecmd.go`: the global force flag, the already-resolved path of the store file (the result
of `c.persistentStateFile()`), the destination system, the interactive prompt
`c.promptChoice(prompt, choices)`, which answers with a string or an error and may act on the
state, the flags `c.state`, and `c.marshal(format, data)`, which serializes `data` in the
requested format onto the output or fails. -/
structure Config (σ : Type) where
  force : Bool
  persistentStateFile : AbsPath
  destSystem : System σ
  promptChoice : String → List String → σ → (String × Option GoError) × σ
  state : stateCmdConfig
  marshal : String → GoMap (List UInt8) (GoMap (List UInt8) (List UInt8)) → List UInt8 →
    Option GoError × List UInt8

/-- The call `c.promptChoice(prompt, choices)`. -/
def Config.callPromptChoice {σ : Type} (c : Config σ) (prompt : String) (choices : List String)
    (w : CmdWorld σ) : (String × Option GoError) × CmdWorld σ :=
  ((c.promptChoice prompt choices w.world.state).1,
    ⟨⟨(c.promptChoice prompt choices w.world.state).2, w.world.trace⟩,
      w.prompts ++ [(prompt, choices)]⟩)

/-- The method `runStateResetCmd` of `Config`. A `switch` none of whose cases applies is left
without effect, so the `RemoveAll` that follows it is reached. -/
def Config.runStateResetCmd {σ : Type} (c : Config σ) (w : CmdWorld σ) :
    Option GoError × CmdWorld σ :=
  let path := c.persistentStateFile
  let r := c.destSystem.callStat path w.world
  let w1 : CmdWorld σ := ⟨r.2, w.prompts⟩
  if os.IsNotExist r.1.2 then
    (none, w1)
  else
    match r.1.2 with
    | some err => (some err, w1)
    | none =>
      if !c.force then
        let p := c.callPromptChoice ("Remove " ++ path) ["yes", "no"] w1
        match p.1.2 with
        | some err => (some err, p.2)
        | none =>
          if p.1.1 = "yes" then
            ((c.destSystem.callRemoveAll path p.2.world).1,
              ⟨(c.destSystem.callRemoveAll path p.2.world).2, p.2.prompts⟩)
          else if p.1.1 = "no" then
            (none, p.2)
          else
            ((c.destSystem.callRemoveAll path p.2.world).1,
              ⟨(c.destSystem.callRemoveAll path p.2.world).2, p.2.prompts⟩)
      else
        ((c.destSystem.callRemoveAll path w1.world).1,
          ⟨(c.destSystem.callRemoveAll path w1.world).2, w1.prompts⟩)

/-- An example configuration over the example filesystem: the store file is at `path`, the
user answers every prompt with `answer`, the flags name the bucket `b`, the key `k` and the
value `v`, and marshalling writes the number of buckets. -/
def memConfig (force : Bool) (path : AbsPath) (answer : String × Option GoError) :
    Config MemFS :=
  ⟨force, path, memSystem, fun _ _ fs => (answer, fs),
    ⟨⟨"json"⟩, ⟨"b", "k"⟩, ⟨"json"⟩, ⟨"b", "k"⟩, ⟨"b", "k", "v"⟩⟩,
    fun _ data out => (none, out ++ [UInt8.ofNat data.keys.length])⟩

/-- The example world of a command before any call or prompt. -/
def memCmdWorld : CmdWorld MemFS := ⟨memWorld, []⟩

end Chezmoi

/-! ## The persistent state and its commands -/

namespace Chezmoi

/-- Modelled from the spec: the Persistent State, declared outside `statecmd.go`: a two-level
mapping bucket → key → value over opaque byte strings. `notFound` is the result by which `Get`
signals an absent key, a distinguished error or an empty result. -/
structure PersistentState where
  buckets : GoMap (List UInt8) (GoMap (List UInt8) (List UInt8))
  notFound : List UInt8 × Option GoError

/-- The value stored under `key` in `bucket`, if any. -/
def PersistentState.lookup (ps : PersistentState) (bucket key : List UInt8) :
    Option (List UInt8) :=
  (ps.buckets.lookup bucket).bind (fun b => b.lookup key)

/-- Modelled from the spec: `Get(bucket, key)` fails with the not-found condition when the key is
absent in the bucket; otherwise it returns the stored bytes unchanged. -/
def PersistentState.Get (ps : PersistentState) (bucket key : List UInt8) :
    List UInt8 × Option GoError :=
  match ps.lookup bucket key with
  | some value => (value, none)
  | none => ps.notFound

/-- Modelled from the spec: `Set(bucket, key, value)` upserts, overwriting silently. -/
def PersistentState.Set (ps : PersistentState) (bucket key value : List UInt8) :
    Option GoError × PersistentState :=
  (none,
    { ps with
      buckets := ps.buckets.insert bucket
        (((ps.buckets.lookup bucket).getD ∅).insert key value) })

/-- Modelled from the spec: `Delete(bucket, key)` removes the key if present; deleting an absent
key is not an error. -/
def PersistentState.Delete (ps : PersistentState) (bucket key : List UInt8) :
    Option GoError × PersistentState :=
  match ps.buckets.lookup bucket with
  | none => (none, ps)
  | some b => (none, { ps with buckets := ps.buckets.insert bucket (b.erase key) })

/-- Modelled from the spec: `Data()` is the full dump, the nested mapping
bucket → key → value. -/
def PersistentState.Data (ps : PersistentState) :
    GoMap (List UInt8) (GoMap (List UInt8) (List UInt8)) × Option GoError :=
  (ps.buckets, none)

/-- The persistent state of the configuration and the bytes written to its output so far. -/
structure StoreWorld where
  persistentState : PersistentState
  stdout : List UInt8

/-- Modelled from the spec: `c.writeOutput(data)` prints the requested value to the output. -/
def Config.writeOutput {σ : Type} (_c : Config σ) (data : List UInt8) (w : StoreWorld) :
    Option GoError × StoreWorld :=
  (none, { w with stdout := w.stdout ++ data })

/-- The method `runStateDataCmd` of `Config`. -/
def Config.runStateDataCmd {σ : Type} (c : Config σ) (w : StoreWorld) :
    Option GoError × StoreWorld :=
  match w.persistentState.Data with
  | (_, some err) => (some err, w)
  | (data, none) =>
    ((c.marshal c.state.data.format data w.stdout).1,
      { w with stdout := (c.marshal c.state.data.format data w.stdout).2 })

/-- The method `runStateDeleteCmd` of `Config`. -/
def Config.runStateDeleteCmd {σ : Type} (c : Config σ) (w : StoreWorld) :
    Option GoError × StoreWorld :=
  ((w.persistentState.Delete (bytesOfString c.state.delete.bucket)
      (bytesOfString c.state.delete.key)).1,
    { w with
      persistentState := (w.persistentState.Delete (bytesOfString c.state.delete.bucket)
        (bytesOfString c.state.delete.key)).2 })

/-- The method `runStateGetCmd` of `Config`. -/
def Config.runStateGetCmd {σ : Type} (c : Config σ) (w : StoreWorld) :
    Option GoError × StoreWorld :=
  match w.persistentState.Get (bytesOfString c.state.get.bucket)
      (bytesOfString c.state.get.key) with
  | (_, some err) => (some err, w)
  | (value, none) => c.writeOutput value w

/-- The method `runStateSetCmd` of `Config`. -/
def Config.runStateSetCmd {σ : Type} (c : Config σ) (w : StoreWorld) :
    Option GoError × StoreWorld :=
  ((w.persistentState.Set (bytesOfString c.state.set.bucket) (bytesOfString c.state.set.key)
      (bytesOfString c.state.set.value)).1,
    { w with
      persistentState := (w.persistentState.Set (bytesOfString c.state.set.bucket)
        (bytesOfString c.state.set.key) (bytesOfString c.state.set.value)).2 })

end Chezmoi

namespace Chezmoi

/-- An example store world: an empty store that signals an absent key by an error, and no
output yet. -/
def memStoreWorld : StoreWorld :=
  ⟨⟨∅, ([], some (GoError.other "key not found"))⟩, []⟩

end Chezmoi

/-! ## Utilities: `cmd/util.go`

Here a Go `string` is a Lean `String`, a sequence of Unicode code points, where the code works
on runes (`parseBool`, `titleize`, `upperSnakeCaseToCamelCase`), and a `List UInt8` where it
works on bytes (`uniqueAbbreviations`). -/

namespace Chezmoi

/-- The case mappings of Go's table `unicode.CaseRanges`, which `unicode.ToLower` and
`unicode.ToTitle` consult for the runes above ASCII. The table is a parameter. -/
structure CaseRanges where
  lower : Char → Char
  title : Char → Char

/-- Go `unicode.IsSpace`: in Latin-1 the runes `\t`, `\n`, `\v`, `\f`, `\r`, space, U+0085 and
U+00A0; above, the runes with the property `White_Space`. -/
def unicode.IsSpace (r : Char) : Bool :=
  if r.toNat ≤ 0xFF then
    r.toNat = 0x09 || r.toNat = 0x0A || r.toNat = 0x0B || r.toNat = 0x0C || r.toNat = 0x0D ||
      r.toNat = 0x20 || r.toNat = 0x85 || r.toNat = 0xA0
  else
    r.toNat = 0x1680 || (0x2000 ≤ r.toNat && r.toNat ≤ 0x200A) || r.toNat = 0x2028 ||
      r.toNat = 0x2029 || r.toNat = 0x202F || r.toNat = 0x205F || r.toNat = 0x3000

/-- Go `unicode.ToLower`: on ASCII, `A`..`Z` are shifted to `a`..`z`; above, the table. -/
def unicode.ToLower (t : CaseRanges) (r : Char) : Char :=
  if r.toNat ≤ 0x7F then
    if 0x41 ≤ r.toNat ∧ r.toNat ≤ 0x5A then Char.ofNat (r.toNat + 0x20) else r
  else t.lower r

/-- Go `unicode.ToTitle`: on ASCII, `a`..`z` are shifted to `A`..`Z`; above, the table. -/
def unicode.ToTitle (t : CaseRanges) (r : Char) : Char :=
  if r.toNat ≤ 0x7F then
    if 0x61 ≤ r.toNat ∧ r.toNat ≤ 0x7A then Char.ofNat (r.toNat - 0x20) else r
  else t.title r

/-- Go `strings.TrimSpace`: the string without its leading and trailing white space. -/
def strings.TrimSpace (s : String) : String :=
  ⟨(s.data.dropWhile unicode.IsSpace).rdropWhile unicode.IsSpace⟩

/-- Go `strings.ToLower`: every rune mapped to its lower case. -/
def strings.ToLower (t : CaseRanges) (s : String) : String :=
  ⟨s.data.map (unicode.ToLower t)⟩

/-- Go `strconv.ParseBool`. Its error is a `*NumError` naming the function, the input and
`ErrSyntax`. -/
def strconv.ParseBool (str : String) : Bool × Option GoError :=
  if str = "1" ∨ str = "t" ∨ str = "T" ∨ str = "TRUE" ∨ str = "true" ∨ str = "True" then
    (true, none)
  else if str = "0" ∨ str = "f" ∨ str = "F" ∨ str = "FALSE" ∨ str = "false" ∨
      str = "False" then
    (false, none)
  else
    (false, some (GoError.other
      ("strconv.ParseBool: parsing " ++ str.quote ++ ": invalid syntax")))

/-- The function `parseBool`: parseBool is like strconv.ParseBool but also accepts on, ON, y, Y,
yes, YES, n, N, no, NO, off, and OFF. -/
def parseBool (t : CaseRanges) (str : String) : Bool × Option GoError :=
  if strings.ToLower t (strings.TrimSpace str) = "n" ∨
      strings.ToLower t (strings.TrimSpace str) = "no" ∨
      strings.ToLower t (strings.TrimSpace str) = "off" then
    (false, none)
  else if strings.ToLower t (strings.TrimSpace str) = "on" ∨
      strings.ToLower t (strings.TrimSpace str) = "y" ∨
      strings.ToLower t (strings.TrimSpace str) = "yes" then
    (true, none)
  else
    strconv.ParseBool str

end Chezmoi

namespace Chezmoi

/-- The statement `abbreviations[abbreviation] = append(abbreviations[abbreviation], value)`;
a key that is absent reads as the nil slice. -/
def appendAbbreviation (abbreviations : GoMap (List UInt8) (List (List UInt8)))
    (abbreviation value : List UInt8) : GoMap (List UInt8) (List (List UInt8)) :=
  abbreviations.insert abbreviation
    ((abbreviations.lookup abbreviation).getD [] ++ [value])

/-- The inner loop of `uniqueAbbreviations`: `for i := 1; i <= len(value); i++`, with
`value[:i]` the first `i` bytes of `value`. -/
def appendAbbreviations (abbreviations : GoMap (List UInt8) (List (List UInt8)))
    (value : List UInt8) : GoMap (List UInt8) (List (List UInt8)) :=
  (List.range' 1 value.length).foldl
    (fun abbreviations i => appendAbbreviation abbreviations (value.take i) value)
    abbreviations

/-- The body of the second loop of `uniqueAbbreviations`:
`if len(values) == 1 { uniqueAbbreviations[abbreviation] = values[0] }`. -/
def recordUnique (uniqueAbbreviations : GoMap (List UInt8) (List UInt8))
    (abbreviation : List UInt8) (values : List (List UInt8)) :
    GoMap (List UInt8) (List UInt8) :=
  match values with
  | [value] => uniqueAbbreviations.insert abbreviation value
  | _ => uniqueAbbreviations

/-- The function `uniqueAbbreviations`: uniqueAbbreviations returns a map of unique
abbreviations of values to values. Values always map to themselves. The second loop ranges over
the entries of a map, in an order Go leaves open; the keys being unique, the order does not
matter. -/
def uniqueAbbreviations (values : List (List UInt8)) : GoMap (List UInt8) (List UInt8) :=
  values.foldl (fun uniqueAbbreviations value => uniqueAbbreviations.insert value value)
    ((values.foldl appendAbbreviations ∅).entries.foldl
      (fun uniqueAbbreviations entry => recordUnique uniqueAbbreviations entry.1 entry.2)
      ∅)

end Chezmoi

namespace Chezmoi

/-- The variable `yesNoAllQuit`. -/
def yesNoAllQuit : List (List UInt8) :=
  [bytesOfString "yes", bytesOfString "no", bytesOfString "all", bytesOfString "quit"]

end Chezmoi

namespace Chezmoi

/-- The values `validateKeys` tells apart by its type switch: a `map[string]interface{}`, whose
entries are listed in the order in which `range` visits them (an order Go leaves open), a
`[]interface{}`, and any other value, a leaf. -/
inductive Data where
  | scalar (text : String)
  | map (entries : List (String × Data))
  | slice (items : List Data)

mutual

/-- The function `validateKeys`: validateKeys ensures that all keys in data match re. The regular
expression is given by its `MatchString`. -/
def validateKeys (data : Data) (re : String → Bool) : Option GoError :=
  match data with
  | Data.map entries => validateKeysMap entries re
  | Data.slice items => validateKeysSlice items re
  | Data.scalar _ => none

/-- The loop of `validateKeys` over the entries of a map. -/
def validateKeysMap (entries : List (String × Data)) (re : String → Bool) : Option GoError :=
  match entries with
  | [] => none
  | (key, value) :: rest =>
    if !re key then
      some (GoError.other (key ++ ": invalid key"))
    else
      match validateKeys value re with
      | some err => some err
      | none => validateKeysMap rest re

/-- The loop of `validateKeys` over the items of a slice. -/
def validateKeysSlice (items : List Data) (re : String → Bool) : Option GoError :=
  match items with
  | [] => none
  | value :: rest =>
    match validateKeys value re with
    | some err => some err
    | none => validateKeysSlice rest re

end

mutual

/-- The keys of all map nodes anywhere in a data value. -/
def Data.keys (data : Data) : List String :=
  match data with
  | Data.map entries => Data.keysMap entries
  | Data.slice items => Data.keysSlice items
  | Data.scalar _ => []

/-- The keys of all map nodes in and below the entries of a map. -/
def Data.keysMap (entries : List (String × Data)) : List String :=
  match entries with
  | [] => []
  | (key, value) :: rest => key :: (Data.keys value ++ Data.keysMap rest)

/-- The keys of all map nodes below the items of a slice. -/
def Data.keysSlice (items : List Data) : List String :=
  match items with
  | [] => []
  | value :: rest => Data.keys value ++ Data.keysSlice rest

end

/-- An example data value: a map holding a scalar and a slice with a nested map. -/
def exampleData : Data :=
  Data.map [("name", Data.scalar "x"),
    ("items", Data.slice [Data.scalar "1", Data.map [("bad key", Data.scalar "2")]])]

/-- A stand-in for a regular expression: the strings without a space. -/
def noSpace (s : String) : Bool := !s.data.contains ' '

end Chezmoi

namespace Chezmoi

/-- The variable `wellKnownAbbreviations`, a `map[string]struct{}` given by its keys. -/
def wellKnownAbbreviations : List String :=
  ["ANSI", "CPE", "ID", "URL"]

/-- The function `isWellKnownAbbreviation`: isWellKnownAbbreviation returns true if word is a
well known abbreviation. -/
def isWellKnownAbbreviation (word : String) : Bool :=
  wellKnownAbbreviations.contains word

/-- The function `titleize`: titleize returns s with its first rune titlized. -/
def titleize (t : CaseRanges) (s : String) : String :=
  match s.data with
  | [] => s
  | r :: runes => ⟨unicode.ToTitle t r :: runes⟩

/-- The pieces of a sequence of runes between the occurrences of `sep`. -/
def splitRunes (sep : Char) : List Char → List (List Char)
  | [] => [[]]
  | r :: runes =>
    if r = sep then [] :: splitRunes sep runes
    else
      match splitRunes sep runes with
      | [] => [[r]]
      | word :: words => (r :: word) :: words

/-- Go `strings.Split(s, sep)` for a separator of one rune: the substrings of `s` between the
occurrences of `sep`. -/
def strings.Split (s : String) (sep : Char) : List String :=
  (splitRunes sep s.data).map String.mk

/-- Go `strings.Join(elems, "")`: the concatenation of the elements. -/
def strings.Join (elems : List String) : String :=
  ⟨(elems.map String.data).flatten⟩

/-- The loop of `upperSnakeCaseToCamelCase` from the index `i` on: `words[i]` is replaced by its
lower case when `i == 0`, by its titleized lower case when it is not a well-known abbreviation,
and is left alone otherwise. -/
def camelCaseWords (t : CaseRanges) : Nat → List String → List String
  | _, [] => []
  | i, word :: words =>
    (if i = 0 then strings.ToLower t word
      else if !isWellKnownAbbreviation word then titleize t (strings.ToLower t word)
      else word) :: camelCaseWords t (i + 1) words

/-- The function `upperSnakeCaseToCamelCase`: upperSnakeCaseToCamelCase converts a string in
UPPER_SNAKE_CASE to camelCase. -/
def upperSnakeCaseToCamelCase (t : CaseRanges) (s : String) : String :=
  strings.Join (camelCaseWords t 0 (strings.Split s '_'))

end Chezmoi

namespace Chezmoi

/-- An example case table: it leaves every rune above ASCII as it is. -/
def plainCaseRanges : CaseRanges := ⟨id, id⟩

end Chezmoi

/-! ## Construction -/

namespace Chezmoi

/-- The outcome of `NewActualStateEntry` is its decision on the inspection result. -/
theorem NewActualStateEntry_fst {σ : Type} (system : System σ) (absPath : AbsPath)
    (info : Option FileInfo) (err : Option GoError) (w : World σ) :
    (NewActualStateEntry system absPath info err w).1 =
      dispatch system absPath (inspection system absPath info err w) := by
  cases info with
  | none =>
    simp only [NewActualStateEntry, dispatch, inspection, System.callLstat]
    split
    · rfl
    · split
      · rfl
      · split
        · rfl
        · split <;> [rfl; split <;> [rfl; split <;> rfl]]
  | some fi =>
    simp only [NewActualStateEntry, dispatch, inspection]
    split
    · rfl
    · split
      · rfl
      · split <;> [rfl; split <;> [rfl; split <;> rfl]]

/-- The world after `NewActualStateEntry`: one `Lstat` call when `info` is nil, else no call. -/
theorem NewActualStateEntry_snd {σ : Type} (system : System σ) (absPath : AbsPath)
    (info : Option FileInfo) (err : Option GoError) (w : World σ) :
    (NewActualStateEntry system absPath info err w).2 =
      match info with
      | none => (system.callLstat absPath w).2
      | some _ => w := by
  cases info with
  | none =>
    simp only [NewActualStateEntry]
    split
    · rfl
    · split
      · rfl
      · split
        · rfl
        · split <;> [rfl; split <;> [rfl; split <;> rfl]]
  | some fi =>
    simp only [NewActualStateEntry]
    split
    · rfl
    · split
      · rfl
      · split <;> [rfl; split <;> [rfl; split <;> rfl]]

/-- An error-free inspection of a regular file yields an `ActualStateFile`. -/
theorem NewActualStateEntry_file {σ : Type} (system : System σ) (absPath : AbsPath)
    (info : Option FileInfo) (err : Option GoError) (w : World σ) (fi : FileInfo)
    (h : inspection system absPath info err w = (some fi, none))
    (h0 : fi.Mode &&& os.ModeType = 0) :
    (NewActualStateEntry system absPath info err w).1 =
      Outcome.ret (some (ActualStateEntry.File
        ⟨absPath, fi.Mode &&& os.ModePerm,
          newLazyContentsFunc (fun w1 => system.callReadFile absPath w1)⟩)) none := by
  simp [NewActualStateEntry_fst, dispatch, h, os.IsNotExist, h0]

/-- An error-free inspection of a directory yields an `ActualStateDir`. -/
theorem NewActualStateEntry_dir {σ : Type} (system : System σ) (absPath : AbsPath)
    (info : Option FileInfo) (err : Option GoError) (w : World σ) (fi : FileInfo)
    (h : inspection system absPath info err w = (some fi, none))
    (hd : fi.Mode &&& os.ModeType = os.ModeDir) :
    (NewActualStateEntry system absPath info err w).1 =
      Outcome.ret (some (ActualStateEntry.Dir ⟨absPath, fi.Mode &&& os.ModePerm⟩)) none := by
  have hD : os.ModeDir ≠ 0 := by decide
  simp [NewActualStateEntry_fst, dispatch, h, os.IsNotExist, hd, hD]

/-- An error-free inspection of a symlink yields an `ActualStateSymlink`. -/
theorem NewActualStateEntry_symlink {σ : Type} (system : System σ) (absPath : AbsPath)
    (info : Option FileInfo) (err : Option GoError) (w : World σ) (fi : FileInfo)
    (h : inspection system absPath info err w = (some fi, none))
    (hs : fi.Mode &&& os.ModeType = os.ModeSymlink) :
    (NewActualStateEntry system absPath info err w).1 =
      Outcome.ret (some (ActualStateEntry.Symlink
        ⟨absPath, newLazyLinknameFunc (fun w1 => system.callReadlink absPath w1)⟩)) none := by
  have hS : os.ModeSymlink ≠ 0 := by decide
  have hSD : os.ModeSymlink ≠ os.ModeDir := by decide
  simp [NewActualStateEntry_fst, dispatch, h, os.IsNotExist, hs, hS, hSD]

/-- C1. If the inspection result (the supplied pair when `info` is non-nil, otherwise the result
of `system.Lstat(absPath)`) carries a not-exist error, `NewActualStateEntry` returns an
`ActualStateAbsent` with a nil error; its `Path()` is the given path, its `EntryState()` is
`{Type: Remove}` with zero mode, no hash and no contents and a nil error, and its
`Remove(system)` returns nil. -/
theorem NewActualStateEntry_absent {σ : Type} (system : System σ) (absPath : AbsPath)
    (info : Option FileInfo) (err : Option GoError) (w : World σ)
    (h : os.IsNotExist (inspection system absPath info err w).2 = true) :
    (NewActualStateEntry system absPath info err w).1 =
        Outcome.ret (some (ActualStateEntry.Absent ⟨absPath⟩)) none ∧
      (ActualStateEntry.Absent ⟨absPath⟩ : ActualStateEntry σ).Path = absPath ∧
      (∀ (SHA256Sum : List UInt8 → List UInt8) (w1 : World σ),
        ((ActualStateEntry.Absent ⟨absPath⟩ : ActualStateEntry σ).EntryState SHA256Sum w1).1 =
          (some ⟨EntryStateType.Remove, 0, [], []⟩, none)) ∧
      (∀ (system1 : System σ) (w1 : World σ),
        ((ActualStateEntry.Absent ⟨absPath⟩ : ActualStateEntry σ).Remove system1 w1).1 =
          none) := by
  refine ⟨?_, rfl, fun _ _ => rfl, fun _ _ => rfl⟩
  rw [NewActualStateEntry_fst, dispatch, if_pos h]

/-- C1 at a path the example filesystem does not hold, and at a supplied not-exist error. -/
theorem NewActualStateEntry_absent_witness :
    (os.IsNotExist (inspection memSystem "/nope" none none memWorld).2 = true ∧
      (NewActualStateEntry memSystem "/nope" none none memWorld).1 =
        Outcome.ret (some (ActualStateEntry.Absent ⟨"/nope"⟩)) none) ∧
    (os.IsNotExist (inspection memSystem "/f" (some ⟨0o644⟩)
        (some (GoError.notExist "gone")) memWorld).2 = true ∧
      (NewActualStateEntry memSystem "/f" (some ⟨0o644⟩)
        (some (GoError.notExist "gone")) memWorld).1 =
        Outcome.ret (some (ActualStateEntry.Absent ⟨"/f"⟩)) none) :=
  ⟨⟨by decide, (NewActualStateEntry_absent memSystem "/nope" none none memWorld
      (by decide)).1⟩,
    ⟨by decide, (NewActualStateEntry_absent memSystem "/f" (some ⟨0o644⟩)
      (some (GoError.notExist "gone")) memWorld (by decide)).1⟩⟩

end Chezmoi

namespace Chezmoi

/-- C2. For an error-free inspection result with mode `m`, `NewActualStateEntry` returns, with a
nil error, an `ActualStateFile` with `absPath` and `perm = m & ModePerm` when `m & ModeType = 0`,
an `ActualStateDir` with `absPath` and `perm = m & ModePerm` when `m & ModeType = ModeDir`, and
an `ActualStateSymlink` with `absPath` when `m & ModeType = ModeSymlink`. Two inspected modes
that differ only in bits outside `ModeType` and `ModePerm` give the same variant and the same
stored perm. -/
theorem NewActualStateEntry_variant {σ : Type} (system : System σ) (absPath : AbsPath)
    (info : Option FileInfo) (err : Option GoError) (w : World σ) (fi : FileInfo)
    (h : inspection system absPath info err w = (some fi, none)) :
    (fi.Mode &&& os.ModeType = 0 →
      (NewActualStateEntry system absPath info err w).1 =
        Outcome.ret (some (ActualStateEntry.File
          ⟨absPath, fi.Mode &&& os.ModePerm,
            newLazyContentsFunc (fun w1 => system.callReadFile absPath w1)⟩)) none) ∧
    (fi.Mode &&& os.ModeType = os.ModeDir →
      (NewActualStateEntry system absPath info err w).1 =
        Outcome.ret (some (ActualStateEntry.Dir ⟨absPath, fi.Mode &&& os.ModePerm⟩)) none) ∧
    (fi.Mode &&& os.ModeType = os.ModeSymlink →
      (NewActualStateEntry system absPath info err w).1 =
        Outcome.ret (some (ActualStateEntry.Symlink
          ⟨absPath, newLazyLinknameFunc (fun w1 => system.callReadlink absPath w1)⟩)) none) ∧
    (∀ (info1 : Option FileInfo) (err1 : Option GoError) (w1 : World σ) (fi1 : FileInfo),
      inspection system absPath info1 err1 w1 = (some fi1, none) →
      fi1.Mode &&& os.ModeType = fi.Mode &&& os.ModeType →
      fi1.Mode &&& os.ModePerm = fi.Mode &&& os.ModePerm →
      (fi.Mode &&& os.ModeType = 0 ∨ fi.Mode &&& os.ModeType = os.ModeDir ∨
        fi.Mode &&& os.ModeType = os.ModeSymlink) →
      (NewActualStateEntry system absPath info1 err1 w1).1 =
        (NewActualStateEntry system absPath info err w).1) := by
  have hD : os.ModeDir ≠ 0 := by decide
  have hS : os.ModeSymlink ≠ 0 := by decide
  have hSD : os.ModeSymlink ≠ os.ModeDir := by decide
  refine ⟨NewActualStateEntry_file system absPath info err w fi h,
    NewActualStateEntry_dir system absPath info err w fi h,
    NewActualStateEntry_symlink system absPath info err w fi h, ?_⟩
  · intro info1 err1 w1 fi1 h1 ht hp hsup
    rw [NewActualStateEntry_fst, NewActualStateEntry_fst, h, h1]
    rcases hsup with h0 | hd | hs
    · simp [dispatch, os.IsNotExist, ht, hp, h0]
    · simp [dispatch, os.IsNotExist, ht, hp, hd, hD]
    · simp [dispatch, os.IsNotExist, ht, hp, hs, hS, hSD]

end Chezmoi

namespace Chezmoi

/-- C2 at the setgid directory `/d` of the example filesystem: the variant is a directory and
the stored perm is `0o755`. -/
theorem NewActualStateEntry_variant_witness :
    inspection memSystem "/d" none none memWorld =
        (some ⟨os.ModeDir ||| os.ModeSetgid ||| 0o755⟩, none) ∧
      (NewActualStateEntry memSystem "/d" none none memWorld).1 =
        Outcome.ret (some (ActualStateEntry.Dir
          ⟨"/d", (os.ModeDir ||| os.ModeSetgid ||| 0o755) &&& os.ModePerm⟩)) none ∧
      (os.ModeDir ||| os.ModeSetgid ||| 0o755) &&& os.ModePerm = 0o755 :=
  ⟨by decide,
    (NewActualStateEntry_variant memSystem "/d" none none memWorld
      ⟨os.ModeDir ||| os.ModeSetgid ||| 0o755⟩ (by decide)).2.1 (by decide),
    by decide⟩

/-- C3. Fail-closed dispatch: for an error-free inspection result whose mode `m` has
`m & ModeType` not in `{0, ModeDir, ModeSymlink}`, `NewActualStateEntry` returns no entry and an
`errUnsupportedFileType` carrying the given path and the full unmasked `m`; conversely, on an
error-free inspection result it returns an error of that kind only for such modes. A named pipe,
socket, device, char device, irregular file and `ModeDir|ModeSymlink` are such modes. -/
theorem NewActualStateEntry_unsupported {σ : Type} (system : System σ) (absPath : AbsPath)
    (info : Option FileInfo) (err : Option GoError) (w : World σ) (fi : FileInfo)
    (h : inspection system absPath info err w = (some fi, none)) :
    ((fi.Mode &&& os.ModeType ≠ 0 ∧ fi.Mode &&& os.ModeType ≠ os.ModeDir ∧
        fi.Mode &&& os.ModeType ≠ os.ModeSymlink) →
      (NewActualStateEntry system absPath info err w).1 =
        Outcome.ret none (some (GoError.errUnsupportedFileType absPath fi.Mode))) ∧
    (∀ (value : Option (ActualStateEntry σ)) (p : AbsPath) (m : FileMode),
      (NewActualStateEntry system absPath info err w).1 =
        Outcome.ret value (some (GoError.errUnsupportedFileType p m)) →
      (fi.Mode &&& os.ModeType ≠ 0 ∧ fi.Mode &&& os.ModeType ≠ os.ModeDir ∧
        fi.Mode &&& os.ModeType ≠ os.ModeSymlink) ∧ value = none ∧ p = absPath ∧
        m = fi.Mode) ∧
    (∀ t ∈ [os.ModeNamedPipe, os.ModeSocket, os.ModeDevice, os.ModeDevice ||| os.ModeCharDevice,
        os.ModeCharDevice, os.ModeIrregular, os.ModeDir ||| os.ModeSymlink],
      t &&& os.ModeType ≠ 0 ∧ t &&& os.ModeType ≠ os.ModeDir ∧
        t &&& os.ModeType ≠ os.ModeSymlink) := by
  refine ⟨?_, ?_, by decide⟩
  · rintro ⟨h0, hd, hs⟩
    simp [NewActualStateEntry_fst, dispatch, h, os.IsNotExist, h0, hd, hs]
  · intro value p m
    rw [NewActualStateEntry_fst, h]
    by_cases h0 : fi.Mode &&& os.ModeType = 0
    · simp [dispatch, os.IsNotExist, h0]
    · by_cases hd : fi.Mode &&& os.ModeType = os.ModeDir
      · have hD : os.ModeDir ≠ 0 := by decide
        simp [dispatch, os.IsNotExist, hd, hD]
      · by_cases hs : fi.Mode &&& os.ModeType = os.ModeSymlink
        · have hS : os.ModeSymlink ≠ 0 := by decide
          have hSD : os.ModeSymlink ≠ os.ModeDir := by decide
          simp [dispatch, os.IsNotExist, hs, hS, hSD]
        · simp only [dispatch, os.IsNotExist, h0, hd, hs, if_false, Bool.false_eq_true]
          intro heq
          simp only [Outcome.ret.injEq, Option.some.injEq,
            GoError.errUnsupportedFileType.injEq] at heq
          exact ⟨⟨h0, hd, hs⟩, heq.1.symm, heq.2.1.symm, heq.2.2.symm⟩

/-- C3 at the named pipe `/p` of the example filesystem. -/
theorem NewActualStateEntry_unsupported_witness :
    inspection memSystem "/p" none none memWorld =
        (some ⟨os.ModeNamedPipe ||| 0o600⟩, none) ∧
      (NewActualStateEntry memSystem "/p" none none memWorld).1 =
        Outcome.ret none
          (some (GoError.errUnsupportedFileType "/p" (os.ModeNamedPipe ||| 0o600))) :=
  ⟨by decide,
    (NewActualStateEntry_unsupported memSystem "/p" none none memWorld
      ⟨os.ModeNamedPipe ||| 0o600⟩ (by decide)).1 (by decide)⟩

/-- C4. If the inspection (`system.Lstat(absPath)` when no info is supplied, or the supplied
pair with non-nil info) reports an error `e` that is not a not-exist error,
`NewActualStateEntry` returns a nil entry and exactly `e`, whatever info accompanies it. -/
theorem NewActualStateEntry_error {σ : Type} (system : System σ) (absPath : AbsPath)
    (info : Option FileInfo) (err : Option GoError) (w : World σ) (e : GoError)
    (h : (inspection system absPath info err w).2 = some e)
    (hne : os.IsNotExist (some e) = false) :
    (NewActualStateEntry system absPath info err w).1 = Outcome.ret none (some e) := by
  rw [NewActualStateEntry_fst, dispatch, h]
  simp [hne]

/-- C4 at the uninspectable path `/root`, and at a supplied error next to a directory info. -/
theorem NewActualStateEntry_error_witness :
    ((inspection memSystem "/root" none none memWorld).2 =
        some (GoError.other "permission denied") ∧
      (NewActualStateEntry memSystem "/root" none none memWorld).1 =
        Outcome.ret none (some (GoError.other "permission denied"))) ∧
    ((inspection memSystem "/d" (some ⟨os.ModeDir ||| 0o755⟩)
        (some (GoError.other "input/output error")) memWorld).2 =
        some (GoError.other "input/output error") ∧
      (NewActualStateEntry memSystem "/d" (some ⟨os.ModeDir ||| 0o755⟩)
        (some (GoError.other "input/output error")) memWorld).1 =
        Outcome.ret none (some (GoError.other "input/output error"))) :=
  ⟨⟨by decide, NewActualStateEntry_error memSystem "/root" none none memWorld
      (GoError.other "permission denied") (by decide) (by decide)⟩,
    ⟨by decide, NewActualStateEntry_error memSystem "/d" (some ⟨os.ModeDir ||| 0o755⟩)
      (some (GoError.other "input/output error")) memWorld
      (GoError.other "input/output error") (by decide) (by decide)⟩⟩

end Chezmoi

namespace Chezmoi

/-- C5, as stated, fails: with a nil info and a supplied error that is not a not-exist error,
`NewActualStateEntry` still calls `system.Lstat`, discards the supplied error and returns a file
entry with a nil error. -/
theorem NewActualStateEntry_calls_counterexample :
    (NewActualStateEntry memSystem "/f" none (some (GoError.other "walk error")) memWorld).2.trace =
        [SystemCall.Lstat "/f"] ∧
      ∃ s, (NewActualStateEntry memSystem "/f" none (some (GoError.other "walk error"))
        memWorld).1 = Outcome.ret (some (ActualStateEntry.File s)) none :=
  ⟨by decide, ⟨_, rfl⟩⟩

/-- C5, amended. `NewActualStateEntry` calls `system.Lstat(absPath)` exactly once when the
supplied info is nil, whether or not an error is supplied: a supplied error is then discarded
and the result is that of the call without it. It makes no call and leaves the system untouched
when a non-nil info is supplied: the supplied pair then decides the outcome whatever the state
of the system, and a supplied error that is not a not-exist error is the error returned. No
`Stat`, `ReadFile`, `Readlink` or `RemoveAll` call is made during construction. -/
theorem NewActualStateEntry_calls {σ : Type} (system : System σ) (absPath : AbsPath)
    (fi : FileInfo) (err : Option GoError) (w : World σ) :
    (NewActualStateEntry system absPath none err w).2.trace =
        w.trace ++ [SystemCall.Lstat absPath] ∧
      (NewActualStateEntry system absPath none err w).2.state =
        (system.Lstat absPath w.state).2 ∧
      NewActualStateEntry system absPath none err w =
        NewActualStateEntry system absPath none none w ∧
      (NewActualStateEntry system absPath (some fi) err w).2 = w ∧
      (∀ w1 : World σ, (NewActualStateEntry system absPath (some fi) err w1).1 =
        (NewActualStateEntry system absPath (some fi) err w).1) ∧
      (∀ e : GoError, os.IsNotExist (some e) = false →
        (NewActualStateEntry system absPath (some fi) (some e) w).1 =
          Outcome.ret none (some e)) := by
  refine ⟨?_, ?_, rfl, ?_, ?_, ?_⟩
  · rw [NewActualStateEntry_snd]; rfl
  · rw [NewActualStateEntry_snd]; rfl
  · rw [NewActualStateEntry_snd]
  · intro w1
    rw [NewActualStateEntry_fst, NewActualStateEntry_fst]; rfl
  · intro e he
    rw [NewActualStateEntry_fst, dispatch]
    simp [inspection, he]

end Chezmoi

/-! ## Entry states and removal -/

namespace Chezmoi

/-- The permission bits carry no type bit. -/
theorem perm_and_ModeType (m : FileMode) : (m &&& os.ModePerm) &&& os.ModeType = 0 := by
  rw [Nat.and_assoc, show os.ModePerm &&& os.ModeType = 0 by decide, Nat.and_zero]

/-- `EntryState()` on a file whose content cell is still bound to `ReadFile`. -/
theorem ActualStateFile_EntryState_fresh {σ : Type} (SHA256Sum : List UInt8 → List UInt8)
    (system : System σ) (absPath : AbsPath) (perm : FileMode) (w : World σ) :
    ActualStateFile.EntryState SHA256Sum
        ⟨absPath, perm, newLazyContentsFunc (fun w1 => system.callReadFile absPath w1)⟩ w =
      match (system.ReadFile absPath w.state).1.2 with
      | none =>
        ((some ⟨EntryStateType.File, perm, SHA256Sum (system.ReadFile absPath w.state).1.1,
            (system.ReadFile absPath w.state).1.1⟩, none),
          ⟨absPath, perm, LazyCell.succeeded (system.ReadFile absPath w.state).1.1⟩,
          (system.callReadFile absPath w).2)
      | some e =>
        ((none, some e), ⟨absPath, perm, LazyCell.failed e⟩,
          (system.callReadFile absPath w).2) := by
  unfold ActualStateFile.EntryState lazyContents.Contents newLazyContentsFunc
  simp only [LazyCell.Get, System.callReadFile]
  cases hr : (system.ReadFile absPath w.state).1.2 with
  | none => simp [lazyContents.ContentsSHA256, LazyCell.Get]
  | some e => simp

end Chezmoi

namespace Chezmoi

/-- `EntryState()` on a symlink whose linkname cell is still bound to `Readlink`. -/
theorem ActualStateSymlink_EntryState_fresh {σ : Type} (SHA256Sum : List UInt8 → List UInt8)
    (system : System σ) (absPath : AbsPath) (w : World σ) :
    ActualStateSymlink.EntryState SHA256Sum
        ⟨absPath, newLazyLinknameFunc (fun w1 => system.callReadlink absPath w1)⟩ w =
      match (system.Readlink absPath w.state).1.2 with
      | none =>
        ((some ⟨EntryStateType.Symlink, 0,
            SHA256Sum (bytesOfString (system.Readlink absPath w.state).1.1),
            bytesOfString (system.Readlink absPath w.state).1.1⟩, none),
          ⟨absPath, LazyCell.succeeded (system.Readlink absPath w.state).1.1⟩,
          (system.callReadlink absPath w).2)
      | some e =>
        ((none, some e), ⟨absPath, LazyCell.failed e⟩, (system.callReadlink absPath w).2) := by
  unfold ActualStateSymlink.EntryState lazyLinkname.Linkname newLazyLinknameFunc
  simp only [LazyCell.Get, System.callReadlink]
  cases hr : (system.Readlink absPath w.state).1.2 with
  | none => simp [lazyLinkname.LinknameSHA256, LazyCell.Get]
  | some e => simp

/-- C6. For a regular file whose inspected mode is `m`, `NewActualStateEntry` builds an entry
whose `EntryState()` is `{Type: File, Mode: m & ModePerm, ContentsSHA256: SHA256(C),
contents: C}` with a nil error when `system.ReadFile(absPath)` returns the bytes `C` without
error, and a nil descriptor with the error `e` when `ReadFile` returns `e`; the mode carries no
type bit. -/
theorem ActualStateFile_EntryState {σ : Type} (SHA256Sum : List UInt8 → List UInt8)
    (system : System σ) (absPath : AbsPath) (info : Option FileInfo) (err : Option GoError)
    (w : World σ) (fi : FileInfo)
    (h : inspection system absPath info err w = (some fi, none))
    (ht : fi.Mode &&& os.ModeType = 0) :
    ∃ entry : ActualStateEntry σ,
      (NewActualStateEntry system absPath info err w).1 = Outcome.ret (some entry) none ∧
      (∀ w1 : World σ,
        ((system.ReadFile absPath w1.state).1.2 = none →
          (entry.EntryState SHA256Sum w1).1 =
            (some ⟨EntryStateType.File, fi.Mode &&& os.ModePerm,
              SHA256Sum (system.ReadFile absPath w1.state).1.1,
              (system.ReadFile absPath w1.state).1.1⟩, none)) ∧
        (∀ e : GoError, (system.ReadFile absPath w1.state).1.2 = some e →
          (entry.EntryState SHA256Sum w1).1 = (none, some e))) ∧
      (fi.Mode &&& os.ModePerm) &&& os.ModeType = 0 := by
  refine ⟨_, NewActualStateEntry_file system absPath info err w fi h ht, ?_,
    perm_and_ModeType fi.Mode⟩
  intro w1
  simp only [ActualStateEntry.EntryState, ActualStateFile_EntryState_fresh]
  constructor
  · intro hC
    rw [hC]
  · intro e he
    rw [he]

/-- C7. For a symlink, `NewActualStateEntry` builds an entry whose `EntryState()` is
`{Type: Symlink, Mode: 0, ContentsSHA256: SHA256(bytes of T), contents: bytes of T}` with a nil
error when `system.Readlink(absPath)` returns the target `T` without error, whatever permission
bits the inspection reported, and a nil descriptor with the error `e` when `Readlink` returns
`e`. -/
theorem ActualStateSymlink_EntryState {σ : Type} (SHA256Sum : List UInt8 → List UInt8)
    (system : System σ) (absPath : AbsPath) (info : Option FileInfo) (err : Option GoError)
    (w : World σ) (fi : FileInfo)
    (h : inspection system absPath info err w = (some fi, none))
    (ht : fi.Mode &&& os.ModeType = os.ModeSymlink) :
    ∃ entry : ActualStateEntry σ,
      (NewActualStateEntry system absPath info err w).1 = Outcome.ret (some entry) none ∧
      (∀ w1 : World σ,
        ((system.Readlink absPath w1.state).1.2 = none →
          (entry.EntryState SHA256Sum w1).1 =
            (some ⟨EntryStateType.Symlink, 0,
              SHA256Sum (bytesOfString (system.Readlink absPath w1.state).1.1),
              bytesOfString (system.Readlink absPath w1.state).1.1⟩, none)) ∧
        (∀ e : GoError, (system.Readlink absPath w1.state).1.2 = some e →
          (entry.EntryState SHA256Sum w1).1 = (none, some e))) := by
  refine ⟨_, NewActualStateEntry_symlink system absPath info err w fi h ht, ?_⟩
  intro w1
  simp only [ActualStateEntry.EntryState, ActualStateSymlink_EntryState_fresh]
  constructor
  · intro hC
    rw [hC]
  · intro e he
    rw [he]

/-- C8. For a directory whose inspected mode is `m`, `NewActualStateEntry` builds an entry whose
`EntryState()` is `{Type: Dir, Mode: ModeDir | (m & ModePerm)}` with no hash, no contents and a
nil error, leaving the entry and the system untouched (no call is made); of the type bits the
mode has exactly `ModeDir`, and it has no setuid, setgid or sticky bit. -/
theorem ActualStateDir_EntryState {σ : Type} (SHA256Sum : List UInt8 → List UInt8)
    (system : System σ) (absPath : AbsPath) (info : Option FileInfo) (err : Option GoError)
    (w : World σ) (fi : FileInfo)
    (h : inspection system absPath info err w = (some fi, none))
    (ht : fi.Mode &&& os.ModeType = os.ModeDir) :
    ∃ entry : ActualStateEntry σ,
      (NewActualStateEntry system absPath info err w).1 = Outcome.ret (some entry) none ∧
      (∀ w1 : World σ, entry.EntryState SHA256Sum w1 =
        ((some ⟨EntryStateType.Dir, os.ModeDir ||| (fi.Mode &&& os.ModePerm), [], []⟩, none),
          entry, w1)) ∧
      (os.ModeDir ||| (fi.Mode &&& os.ModePerm)) &&& os.ModeType = os.ModeDir ∧
      (os.ModeDir ||| (fi.Mode &&& os.ModePerm)) &&&
        (os.ModeSetuid ||| os.ModeSetgid ||| os.ModeSticky) = 0 := by
  refine ⟨_, NewActualStateEntry_dir system absPath info err w fi h ht,
    fun _ => rfl, ?_, ?_⟩
  · rw [Nat.and_distrib_right, perm_and_ModeType,
      show os.ModeDir &&& os.ModeType = os.ModeDir by decide, Nat.or_zero]
  · rw [Nat.and_distrib_right, Nat.and_assoc,
      show os.ModePerm &&& (os.ModeSetuid ||| os.ModeSetgid ||| os.ModeSticky) = 0 by decide,
      show os.ModeDir &&& (os.ModeSetuid ||| os.ModeSetgid ||| os.ModeSticky) = 0 by decide,
      Nat.and_zero, Nat.or_zero]

end Chezmoi

namespace Chezmoi

/-- C6 at the regular file `/f` of the example filesystem, hashed by its length. -/
theorem ActualStateFile_EntryState_witness :
    inspection memSystem "/f" none none memWorld = (some ⟨0o644⟩, none) ∧
      (0o644 : FileMode) &&& os.ModeType = 0 ∧
      ∃ entry : ActualStateEntry MemFS,
        (NewActualStateEntry memSystem "/f" none none memWorld).1 =
          Outcome.ret (some entry) none ∧
        (entry.EntryState lengthSum memWorld).1 =
          (some ⟨EntryStateType.File, 0o644, [2], [104, 105]⟩, none) := by
  refine ⟨by decide, by decide, ?_⟩
  obtain ⟨entry, hentry, hstate, _⟩ :=
    ActualStateFile_EntryState lengthSum memSystem "/f" none none memWorld ⟨0o644⟩
      (by decide) (by decide)
  refine ⟨entry, hentry, ?_⟩
  rw [(hstate memWorld).1 (by decide)]
  decide

/-- C7 at the symlink `/l` of the example filesystem, hashed by its length. -/
theorem ActualStateSymlink_EntryState_witness :
    inspection memSystem "/l" none none memWorld = (some ⟨os.ModeSymlink ||| 0o777⟩, none) ∧
      (os.ModeSymlink ||| 0o777) &&& os.ModeType = os.ModeSymlink ∧
      ∃ entry : ActualStateEntry MemFS,
        (NewActualStateEntry memSystem "/l" none none memWorld).1 =
          Outcome.ret (some entry) none ∧
        (entry.EntryState lengthSum memWorld).1 =
          (some ⟨EntryStateType.Symlink, 0, [1], [102]⟩, none) := by
  refine ⟨by decide, by decide, ?_⟩
  obtain ⟨entry, hentry, hstate⟩ :=
    ActualStateSymlink_EntryState lengthSum memSystem "/l" none none memWorld
      ⟨os.ModeSymlink ||| 0o777⟩ (by decide) (by decide)
  refine ⟨entry, hentry, ?_⟩
  rw [(hstate memWorld).1 (by decide)]
  decide

/-- C8 at the setgid directory `/d` of the example filesystem. -/
theorem ActualStateDir_EntryState_witness :
    inspection memSystem "/d" none none memWorld =
        (some ⟨os.ModeDir ||| os.ModeSetgid ||| 0o755⟩, none) ∧
      (os.ModeDir ||| os.ModeSetgid ||| 0o755) &&& os.ModeType = os.ModeDir ∧
      ∃ entry : ActualStateEntry MemFS,
        (NewActualStateEntry memSystem "/d" none none memWorld).1 =
          Outcome.ret (some entry) none ∧
        (entry.EntryState lengthSum memWorld).1 =
          (some ⟨EntryStateType.Dir, os.ModeDir ||| 0o755, [], []⟩, none) ∧
        (entry.EntryState lengthSum memWorld).2.2.trace = [] := by
  refine ⟨by decide, by decide, ?_⟩
  obtain ⟨entry, hentry, hstate, _, _⟩ :=
    ActualStateDir_EntryState lengthSum memSystem "/d" none none memWorld
      ⟨os.ModeDir ||| os.ModeSetgid ||| 0o755⟩ (by decide) (by decide)
  refine ⟨entry, hentry, ?_, ?_⟩
  · rw [hstate memWorld]
    dsimp only
    decide
  · rw [hstate memWorld]
    rfl

end Chezmoi

/-! ## Compute-once -/

namespace Chezmoi

/-- There is one result per call. -/
theorem entryStateCalls_length {σ : Type} (SHA256Sum : List UInt8 → List UInt8)
    (changes : List (σ → σ)) :
    ∀ (entry : ActualStateEntry σ) (w : World σ),
      (entryStateCalls SHA256Sum entry w changes).1.length = changes.length := by
  induction changes with
  | nil => intro entry w; rfl
  | cons c cs ih =>
    intro entry w
    simp only [entryStateCalls, List.length_cons, ih]

/-- An entry whose `EntryState()` returns `r` and changes neither the entry nor the world does
so at every call of a sequence, whatever happens to the system in between. -/
theorem entryStateCalls_stable {σ : Type} (SHA256Sum : List UInt8 → List UInt8)
    (entry : ActualStateEntry σ) (r : Option EntryState × Option GoError)
    (hst : ∀ w : World σ, entry.EntryState SHA256Sum w = (r, entry, w))
    (changes : List (σ → σ)) :
    ∀ w : World σ,
      (∀ x ∈ (entryStateCalls SHA256Sum entry w changes).1, x = r) ∧
        (entryStateCalls SHA256Sum entry w changes).2.2.trace = w.trace := by
  induction changes with
  | nil => intro w; simp [entryStateCalls]
  | cons c cs ih =>
    intro w
    simp only [entryStateCalls, hst, List.mem_cons, forall_eq_or_imp, true_and]
    exact ih ⟨c w.state, w.trace⟩

/-- A file entry whose content cell holds bytes answers from the cell. -/
theorem ActualStateEntry.EntryState_file_succeeded {σ : Type}
    (SHA256Sum : List UInt8 → List UInt8) (absPath : AbsPath) (perm : FileMode)
    (contents : List UInt8) (w : World σ) :
    ActualStateEntry.EntryState SHA256Sum
        (ActualStateEntry.File ⟨absPath, perm, LazyCell.succeeded contents⟩) w =
      ((some ⟨EntryStateType.File, perm, SHA256Sum contents, contents⟩, none),
        ActualStateEntry.File ⟨absPath, perm, LazyCell.succeeded contents⟩, w) := by
  simp [ActualStateEntry.EntryState, ActualStateFile.EntryState, lazyContents.Contents,
    lazyContents.ContentsSHA256, LazyCell.Get]

/-- A file entry whose content cell holds an error answers with that error. -/
theorem ActualStateEntry.EntryState_file_failed {σ : Type}
    (SHA256Sum : List UInt8 → List UInt8) (absPath : AbsPath) (perm : FileMode)
    (e : GoError) (w : World σ) :
    ActualStateEntry.EntryState SHA256Sum
        (ActualStateEntry.File ⟨absPath, perm, LazyCell.failed e⟩) w =
      ((none, some e), ActualStateEntry.File ⟨absPath, perm, LazyCell.failed e⟩, w) := by
  simp [ActualStateEntry.EntryState, ActualStateFile.EntryState, lazyContents.Contents,
    LazyCell.Get]

/-- A symlink entry whose linkname cell holds a target answers from the cell. -/
theorem ActualStateEntry.EntryState_symlink_succeeded {σ : Type}
    (SHA256Sum : List UInt8 → List UInt8) (absPath : AbsPath) (linkname : String)
    (w : World σ) :
    ActualStateEntry.EntryState SHA256Sum
        (ActualStateEntry.Symlink ⟨absPath, LazyCell.succeeded linkname⟩) w =
      ((some ⟨EntryStateType.Symlink, 0, SHA256Sum (bytesOfString linkname),
          bytesOfString linkname⟩, none),
        ActualStateEntry.Symlink ⟨absPath, LazyCell.succeeded linkname⟩, w) := by
  simp [ActualStateEntry.EntryState, ActualStateSymlink.EntryState, lazyLinkname.Linkname,
    lazyLinkname.LinknameSHA256, LazyCell.Get]

/-- A symlink entry whose linkname cell holds an error answers with that error. -/
theorem ActualStateEntry.EntryState_symlink_failed {σ : Type}
    (SHA256Sum : List UInt8 → List UInt8) (absPath : AbsPath) (e : GoError) (w : World σ) :
    ActualStateEntry.EntryState SHA256Sum
        (ActualStateEntry.Symlink ⟨absPath, LazyCell.failed e⟩) w =
      ((none, some e), ActualStateEntry.Symlink ⟨absPath, LazyCell.failed e⟩, w) := by
  simp [ActualStateEntry.EntryState, ActualStateSymlink.EntryState, lazyLinkname.Linkname,
    LazyCell.Get]

/-- A sequence of calls on a file entry fresh from construction reads the file once. -/
theorem entryStateCalls_file {σ : Type} (SHA256Sum : List UInt8 → List UInt8)
    (system : System σ) (absPath : AbsPath) (perm : FileMode) (w : World σ)
    (change : σ → σ) (changes : List (σ → σ)) :
    (∀ r ∈ (entryStateCalls SHA256Sum (ActualStateEntry.File
          ⟨absPath, perm, newLazyContentsFunc (fun w1 => system.callReadFile absPath w1)⟩) w
          (change :: changes)).1,
        r = (ActualStateEntry.EntryState SHA256Sum (ActualStateEntry.File
          ⟨absPath, perm, newLazyContentsFunc (fun w1 => system.callReadFile absPath w1)⟩)
          w).1) ∧
      (entryStateCalls SHA256Sum (ActualStateEntry.File
          ⟨absPath, perm, newLazyContentsFunc (fun w1 => system.callReadFile absPath w1)⟩) w
          (change :: changes)).2.2.trace = w.trace ++ [SystemCall.ReadFile absPath] := by
  simp only [entryStateCalls, ActualStateEntry.EntryState, ActualStateFile_EntryState_fresh,
    List.mem_cons, forall_eq_or_imp, true_and]
  cases hr : (system.ReadFile absPath w.state).1.2 with
  | none =>
    simp only []
    exact entryStateCalls_stable SHA256Sum _ _
      (ActualStateEntry.EntryState_file_succeeded SHA256Sum absPath perm _) changes _
  | some e =>
    simp only []
    exact entryStateCalls_stable SHA256Sum _ _
      (ActualStateEntry.EntryState_file_failed SHA256Sum absPath perm e) changes _

/-- A sequence of calls on a symlink entry fresh from construction reads the link once. -/
theorem entryStateCalls_symlink {σ : Type} (SHA256Sum : List UInt8 → List UInt8)
    (system : System σ) (absPath : AbsPath) (w : World σ)
    (change : σ → σ) (changes : List (σ → σ)) :
    (∀ r ∈ (entryStateCalls SHA256Sum (ActualStateEntry.Symlink
          ⟨absPath, newLazyLinknameFunc (fun w1 => system.callReadlink absPath w1)⟩) w
          (change :: changes)).1,
        r = (ActualStateEntry.EntryState SHA256Sum (ActualStateEntry.Symlink
          ⟨absPath, newLazyLinknameFunc (fun w1 => system.callReadlink absPath w1)⟩) w).1) ∧
      (entryStateCalls SHA256Sum (ActualStateEntry.Symlink
          ⟨absPath, newLazyLinknameFunc (fun w1 => system.callReadlink absPath w1)⟩) w
          (change :: changes)).2.2.trace = w.trace ++ [SystemCall.Readlink absPath] := by
  simp only [entryStateCalls, ActualStateEntry.EntryState, ActualStateSymlink_EntryState_fresh,
    List.mem_cons, forall_eq_or_imp, true_and]
  cases hr : (system.Readlink absPath w.state).1.2 with
  | none =>
    simp only []
    exact entryStateCalls_stable SHA256Sum _ _
      (ActualStateEntry.EntryState_symlink_succeeded SHA256Sum absPath _) changes _
  | some e =>
    simp only []
    exact entryStateCalls_stable SHA256Sum _ _
      (ActualStateEntry.EntryState_symlink_failed SHA256Sum absPath e) changes _

end Chezmoi

namespace Chezmoi

/-- C9. Compute-once: on the file (resp. symlink) entry built by `NewActualStateEntry`, a
sequence of `n ≥ 1` `EntryState()` calls, with arbitrary changes of the system state between
the calls, makes exactly one call on the system in total, `ReadFile(absPath)` (resp.
`Readlink(absPath)`), and every call returns the result of the first call, be it a descriptor
or the error of a failed fetch. -/
theorem EntryState_compute_once {σ : Type} (SHA256Sum : List UInt8 → List UInt8)
    (system : System σ) (absPath : AbsPath) (info : Option FileInfo) (err : Option GoError)
    (w : World σ) (fi : FileInfo)
    (h : inspection system absPath info err w = (some fi, none))
    (ht : fi.Mode &&& os.ModeType = 0 ∨ fi.Mode &&& os.ModeType = os.ModeSymlink) :
    ∃ entry : ActualStateEntry σ,
      (NewActualStateEntry system absPath info err w).1 = Outcome.ret (some entry) none ∧
      ∀ (w1 : World σ) (change : σ → σ) (changes : List (σ → σ)),
        (entryStateCalls SHA256Sum entry w1 (change :: changes)).1.length =
            changes.length + 1 ∧
          (∀ r ∈ (entryStateCalls SHA256Sum entry w1 (change :: changes)).1,
            r = (entry.EntryState SHA256Sum w1).1) ∧
          (entryStateCalls SHA256Sum entry w1 (change :: changes)).2.2.trace =
            w1.trace ++ [if fi.Mode &&& os.ModeType = 0 then SystemCall.ReadFile absPath
              else SystemCall.Readlink absPath] := by
  rcases ht with h0 | hs
  · refine ⟨_, NewActualStateEntry_file system absPath info err w fi h h0, ?_⟩
    intro w1 change changes
    refine ⟨entryStateCalls_length SHA256Sum _ _ _, ?_⟩
    rw [if_pos h0]
    exact entryStateCalls_file SHA256Sum system absPath _ w1 change changes
  · refine ⟨_, NewActualStateEntry_symlink system absPath info err w fi h hs, ?_⟩
    intro w1 change changes
    refine ⟨entryStateCalls_length SHA256Sum _ _ _, ?_⟩
    have hne : ¬ fi.Mode &&& os.ModeType = 0 := by
      rw [hs]; decide
    rw [if_neg hne]
    exact entryStateCalls_symlink SHA256Sum system absPath w1 change changes

/-- C9 at the regular file `/f` of the example filesystem: three calls, the file being
overwritten after the first and removed after the second, read it once. -/
theorem EntryState_compute_once_witness :
    inspection memSystem "/f" none none memWorld = (some ⟨0o644⟩, none) ∧
      ((0o644 : FileMode) &&& os.ModeType = 0 ∨
        (0o644 : FileMode) &&& os.ModeType = os.ModeSymlink) ∧
      ∃ entry : ActualStateEntry MemFS,
        (NewActualStateEntry memSystem "/f" none none memWorld).1 =
          Outcome.ret (some entry) none ∧
        (entryStateCalls lengthSum entry memWorld
          [fun _ => [("/f", ⟨0o600, [1, 2, 3], ""⟩)], fun _ => [], id]).1.length = 3 ∧
        (∀ r ∈ (entryStateCalls lengthSum entry memWorld
            [fun _ => [("/f", ⟨0o600, [1, 2, 3], ""⟩)], fun _ => [], id]).1,
          r = (entry.EntryState lengthSum memWorld).1) ∧
        (entryStateCalls lengthSum entry memWorld
          [fun _ => [("/f", ⟨0o600, [1, 2, 3], ""⟩)], fun _ => [], id]).2.2.trace =
          [SystemCall.ReadFile "/f"] := by
  refine ⟨by decide, Or.inl (by decide), ?_⟩
  obtain ⟨entry, hentry, hcalls⟩ :=
    EntryState_compute_once lengthSum memSystem "/f" none none memWorld ⟨0o644⟩
      (by decide) (Or.inl (by decide))
  exact ⟨entry, hentry, hcalls memWorld _ _⟩

/-- C10. Remove by variant: `ActualStateAbsent.Remove(system)` returns nil and leaves the
system untouched, so after any number of such calls a further one again returns nil; on a
directory, file or symlink entry `Remove(system)` makes exactly one call,
`system.RemoveAll(p)` with `p` the entry's own `Path()`, and returns that call's result. -/
theorem Remove_by_variant {σ : Type} (system : System σ) (w : World σ) :
    (∀ (s : ActualStateAbsent) (n : Nat),
      (ActualStateEntry.Absent s).Remove system
          ((fun w1 => ((ActualStateEntry.Absent s).Remove system w1).2)^[n] w) =
        (none, w)) ∧
    (∀ s : ActualStateDir,
      (ActualStateEntry.Dir s : ActualStateEntry σ).Remove system w =
        ((system.RemoveAll (ActualStateEntry.Dir s : ActualStateEntry σ).Path w.state).1,
          ⟨(system.RemoveAll (ActualStateEntry.Dir s : ActualStateEntry σ).Path w.state).2,
            w.trace ++
              [SystemCall.RemoveAll (ActualStateEntry.Dir s : ActualStateEntry σ).Path]⟩)) ∧
    (∀ s : ActualStateFile σ,
      (ActualStateEntry.File s).Remove system w =
        ((system.RemoveAll (ActualStateEntry.File s).Path w.state).1,
          ⟨(system.RemoveAll (ActualStateEntry.File s).Path w.state).2,
            w.trace ++ [SystemCall.RemoveAll (ActualStateEntry.File s).Path]⟩)) ∧
    (∀ s : ActualStateSymlink σ,
      (ActualStateEntry.Symlink s).Remove system w =
        ((system.RemoveAll (ActualStateEntry.Symlink s).Path w.state).1,
          ⟨(system.RemoveAll (ActualStateEntry.Symlink s).Path w.state).2,
            w.trace ++ [SystemCall.RemoveAll (ActualStateEntry.Symlink s).Path]⟩)) := by
  refine ⟨?_, fun _ => rfl, fun _ => rfl, fun _ => rfl⟩
  intro s n
  have hfix : ∀ k : Nat,
      (fun w1 => ((ActualStateEntry.Absent s).Remove system w1).2)^[k] w = w := by
    intro k
    induction k with
    | zero => rfl
    | succ k ih => rw [Function.iterate_succ_apply']; rw [ih]; rfl
  rw [hfix n]
  rfl

end Chezmoi

/-! ## The `state reset` command -/

namespace Chezmoi

/-- `runStateResetCmd` when `Stat` reports an error. -/
theorem runStateResetCmd_stat_error {σ : Type} (c : Config σ) (w : CmdWorld σ)
    (info : Option FileInfo) (e : GoError) (s1 : σ)
    (hstat : c.destSystem.Stat c.persistentStateFile w.world.state = ((info, some e), s1)) :
    c.runStateResetCmd w =
      (if os.IsNotExist (some e) then none else some e,
        ⟨⟨s1, w.world.trace ++ [SystemCall.Stat c.persistentStateFile]⟩, w.prompts⟩) := by
  simp only [Config.runStateResetCmd, System.callStat, hstat]
  split <;> rfl

/-- `runStateResetCmd` when `Stat` reports no error and the force flag is set. -/
theorem runStateResetCmd_force {σ : Type} (c : Config σ) (w : CmdWorld σ)
    (info : Option FileInfo) (s1 : σ)
    (hstat : c.destSystem.Stat c.persistentStateFile w.world.state = ((info, none), s1))
    (hforce : c.force = true) :
    c.runStateResetCmd w =
      ((c.destSystem.RemoveAll c.persistentStateFile s1).1,
        ⟨⟨(c.destSystem.RemoveAll c.persistentStateFile s1).2,
            w.world.trace ++ [SystemCall.Stat c.persistentStateFile] ++
              [SystemCall.RemoveAll c.persistentStateFile]⟩, w.prompts⟩) := by
  simp [Config.runStateResetCmd, System.callStat, hstat, hforce, os.IsNotExist,
    System.callRemoveAll]

/-- `runStateResetCmd` when `Stat` reports no error and the force flag is unset: the prompt is
issued, and removal is skipped when the prompt fails or answers `no`. -/
theorem runStateResetCmd_prompt {σ : Type} (c : Config σ) (w : CmdWorld σ)
    (info : Option FileInfo) (s1 s2 : σ) (choice : String) (perr : Option GoError)
    (hstat : c.destSystem.Stat c.persistentStateFile w.world.state = ((info, none), s1))
    (hforce : c.force = false)
    (hprompt : c.promptChoice ("Remove " ++ c.persistentStateFile) ["yes", "no"] s1 =
      ((choice, perr), s2)) :
    c.runStateResetCmd w =
      if perr ≠ none ∨ (choice ≠ "yes" ∧ choice = "no") then
        (perr, ⟨⟨s2, w.world.trace ++ [SystemCall.Stat c.persistentStateFile]⟩,
          w.prompts ++ [("Remove " ++ c.persistentStateFile, ["yes", "no"])]⟩)
      else
        ((c.destSystem.RemoveAll c.persistentStateFile s2).1,
          ⟨⟨(c.destSystem.RemoveAll c.persistentStateFile s2).2,
              w.world.trace ++ [SystemCall.Stat c.persistentStateFile] ++
                [SystemCall.RemoveAll c.persistentStateFile]⟩,
            w.prompts ++ [("Remove " ++ c.persistentStateFile, ["yes", "no"])]⟩) := by
  cases perr with
  | some e =>
    simp [Config.runStateResetCmd, System.callStat, hstat, hforce, os.IsNotExist,
      Config.callPromptChoice, hprompt]
  | none =>
    by_cases hy : choice = "yes"
    · simp [Config.runStateResetCmd, System.callStat, hstat, hforce, os.IsNotExist,
        Config.callPromptChoice, hprompt, hy, System.callRemoveAll]
    · by_cases hn : choice = "no"
      · simp [Config.runStateResetCmd, System.callStat, hstat, hforce, os.IsNotExist,
          Config.callPromptChoice, hprompt, hn]
      · simp [Config.runStateResetCmd, System.callStat, hstat, hforce, os.IsNotExist,
          Config.callPromptChoice, hprompt, hy, hn, System.callRemoveAll]

end Chezmoi

namespace Chezmoi

/-- C11. Reset decision table of `runStateResetCmd`, `Stat` of the store file having returned
`(info, err)`: (1) if `err` is a not-exist error, it returns nil without prompting and without
calling `RemoveAll`; (2) if the file exists, force is unset and the prompt answers `no`, it
returns nil and `RemoveAll` is not called; (3) if the file exists and either force is set (then
no prompt is issued) or the prompt answers `yes`, it calls `RemoveAll` of the store file exactly
once and returns its result. -/
theorem runStateResetCmd_table {σ : Type} (c : Config σ) (w : CmdWorld σ)
    (info : Option FileInfo) (err : Option GoError) (s1 : σ)
    (hstat : c.destSystem.Stat c.persistentStateFile w.world.state = ((info, err), s1)) :
    (os.IsNotExist err = true →
      c.runStateResetCmd w =
        (none, ⟨⟨s1, w.world.trace ++ [SystemCall.Stat c.persistentStateFile]⟩,
          w.prompts⟩)) ∧
    (err = none → c.force = false → ∀ s2 : σ,
      c.promptChoice ("Remove " ++ c.persistentStateFile) ["yes", "no"] s1 =
        (("no", none), s2) →
      c.runStateResetCmd w =
        (none, ⟨⟨s2, w.world.trace ++ [SystemCall.Stat c.persistentStateFile]⟩,
          w.prompts ++ [("Remove " ++ c.persistentStateFile, ["yes", "no"])]⟩)) ∧
    (err = none → c.force = true →
      c.runStateResetCmd w =
        ((c.destSystem.RemoveAll c.persistentStateFile s1).1,
          ⟨⟨(c.destSystem.RemoveAll c.persistentStateFile s1).2,
              w.world.trace ++ [SystemCall.Stat c.persistentStateFile] ++
                [SystemCall.RemoveAll c.persistentStateFile]⟩, w.prompts⟩)) ∧
    (err = none → c.force = false → ∀ s2 : σ,
      c.promptChoice ("Remove " ++ c.persistentStateFile) ["yes", "no"] s1 =
        (("yes", none), s2) →
      c.runStateResetCmd w =
        ((c.destSystem.RemoveAll c.persistentStateFile s2).1,
          ⟨⟨(c.destSystem.RemoveAll c.persistentStateFile s2).2,
              w.world.trace ++ [SystemCall.Stat c.persistentStateFile] ++
                [SystemCall.RemoveAll c.persistentStateFile]⟩,
            w.prompts ++ [("Remove " ++ c.persistentStateFile, ["yes", "no"])]⟩)) := by
  refine ⟨?_, ?_, ?_, ?_⟩
  · intro hne
    cases err with
    | none => simp [os.IsNotExist] at hne
    | some e => rw [runStateResetCmd_stat_error c w info e s1 hstat, if_pos hne]
  · intro herr hforce s2 hprompt
    subst herr
    rw [runStateResetCmd_prompt c w info s1 s2 "no" none hstat hforce hprompt]
    simp
  · intro herr hforce
    subst herr
    exact runStateResetCmd_force c w info s1 hstat hforce
  · intro herr hforce s2 hprompt
    subst herr
    rw [runStateResetCmd_prompt c w info s1 s2 "yes" none hstat hforce hprompt]
    simp

/-- C11 on the example filesystem, the store file being `/f`, force unset and the answer `yes`:
the file is removed after one `Stat`, one prompt and one `RemoveAll`. -/
theorem runStateResetCmd_table_witness :
    memSystem.Stat "/f" memFS = ((some ⟨0o644⟩, none), memFS) ∧
      ((memConfig false "/f" ("yes", none)).runStateResetCmd memCmdWorld).1 = none ∧
      ((memConfig false "/f" ("yes", none)).runStateResetCmd memCmdWorld).2.world.trace =
        [SystemCall.Stat "/f", SystemCall.RemoveAll "/f"] ∧
      ((memConfig false "/f" ("yes", none)).runStateResetCmd memCmdWorld).2.prompts =
        [("Remove /f", ["yes", "no"])] ∧
      (((memConfig false "/f" ("yes", none)).runStateResetCmd memCmdWorld).2.world.state.lookup
        "/f").isNone = true := by
  have h := (runStateResetCmd_table (memConfig false "/f" ("yes", none)) memCmdWorld
    (some ⟨0o644⟩) none memFS (by decide)).2.2.2 rfl rfl memFS rfl
  refine ⟨by decide, ?_, ?_, ?_, ?_⟩ <;> rw [h] <;> decide

/-- C12, as stated, fails: with the store file present and force unset, a prompt that answers
`maybe` (neither `yes` nor `no`) is followed by `RemoveAll`, and the store file is gone. -/
theorem runStateResetCmd_confirm_counterexample :
    ((memConfig false "/f" ("maybe", none)).runStateResetCmd memCmdWorld).1 = none ∧
      ((memConfig false "/f" ("maybe", none)).runStateResetCmd memCmdWorld).2.world.trace =
        [SystemCall.Stat "/f", SystemCall.RemoveAll "/f"] ∧
      (memFS.lookup "/f").isSome = true ∧
      (((memConfig false "/f" ("maybe", none)).runStateResetCmd
        memCmdWorld).2.world.state.lookup "/f").isNone = true := by
  decide

/-- C12, amended. When the store file exists, the operation is not forced, and the prompt
either fails or returns one of the choices it offers, `yes` or `no`, `runStateResetCmd` removes
the store file only if the answer is `yes`: on the answer `no` and on a failed prompt
`RemoveAll` is not called, the system is left as the prompt left it, and the result is the
error of the prompt. -/
theorem runStateResetCmd_confirm {σ : Type} (c : Config σ) (w : CmdWorld σ)
    (info : Option FileInfo) (s1 s2 : σ) (choice : String) (perr : Option GoError)
    (hstat : c.destSystem.Stat c.persistentStateFile w.world.state = ((info, none), s1))
    (hforce : c.force = false)
    (hprompt : c.promptChoice ("Remove " ++ c.persistentStateFile) ["yes", "no"] s1 =
      ((choice, perr), s2))
    (hoffered : perr ≠ none ∨ choice ∈ ["yes", "no"])
    (hnotyes : perr ≠ none ∨ choice ≠ "yes") :
    c.runStateResetCmd w =
      (perr, ⟨⟨s2, w.world.trace ++ [SystemCall.Stat c.persistentStateFile]⟩,
        w.prompts ++ [("Remove " ++ c.persistentStateFile, ["yes", "no"])]⟩) := by
  rw [runStateResetCmd_prompt c w info s1 s2 choice perr hstat hforce hprompt, if_pos]
  rcases hnotyes with hp | hy
  · exact Or.inl hp
  · rcases hoffered with hp | hm
    · exact Or.inl hp
    · simp only [List.mem_cons, List.mem_singleton, List.not_mem_nil, or_false] at hm
      rcases hm with hm | hm
      · exact absurd hm hy
      · exact Or.inr ⟨hy, hm⟩

/-- C12, amended, on the example filesystem with the answer `no`: the store file `/f` stays. -/
theorem runStateResetCmd_confirm_witness :
    memSystem.Stat "/f" memFS = ((some ⟨0o644⟩, none), memFS) ∧
      (memConfig false "/f" ("no", none)).runStateResetCmd memCmdWorld =
        (none, ⟨⟨memFS, [SystemCall.Stat "/f"]⟩, [("Remove /f", ["yes", "no"])]⟩) :=
  ⟨by decide,
    runStateResetCmd_confirm (memConfig false "/f" ("no", none)) memCmdWorld (some ⟨0o644⟩)
      memFS memFS "no" none (by decide) rfl rfl (Or.inr (by decide)) (Or.inr (by decide))⟩

/-- C13. Error propagation in `runStateResetCmd`: if `Stat` of the store file fails with an
error `e` that is not a not-exist error, the command returns `e` without prompting and without
calling `RemoveAll`; if the prompt fails with `e`, the command returns `e` without calling
`RemoveAll`; and where `RemoveAll` is called, after a forced `Stat` or after the answer `yes`,
its error is the result. No such error is turned into a nil result. -/
theorem runStateResetCmd_errors {σ : Type} (c : Config σ) (w : CmdWorld σ)
    (info : Option FileInfo) (err : Option GoError) (s1 : σ)
    (hstat : c.destSystem.Stat c.persistentStateFile w.world.state = ((info, err), s1)) :
    (∀ e : GoError, err = some e → os.IsNotExist (some e) = false →
      c.runStateResetCmd w =
        (some e, ⟨⟨s1, w.world.trace ++ [SystemCall.Stat c.persistentStateFile]⟩,
          w.prompts⟩)) ∧
    (err = none → c.force = false → ∀ (choice : String) (e : GoError) (s2 : σ),
      c.promptChoice ("Remove " ++ c.persistentStateFile) ["yes", "no"] s1 =
        ((choice, some e), s2) →
      c.runStateResetCmd w =
        (some e, ⟨⟨s2, w.world.trace ++ [SystemCall.Stat c.persistentStateFile]⟩,
          w.prompts ++ [("Remove " ++ c.persistentStateFile, ["yes", "no"])]⟩)) ∧
    (err = none → c.force = true → ∀ e : GoError,
      (c.destSystem.RemoveAll c.persistentStateFile s1).1 = some e →
      (c.runStateResetCmd w).1 = some e) ∧
    (err = none → c.force = false → ∀ (e : GoError) (s2 : σ),
      c.promptChoice ("Remove " ++ c.persistentStateFile) ["yes", "no"] s1 =
        (("yes", none), s2) →
      (c.destSystem.RemoveAll c.persistentStateFile s2).1 = some e →
      (c.runStateResetCmd w).1 = some e) := by
  refine ⟨?_, ?_, ?_, ?_⟩
  · intro e herr hne
    subst herr
    rw [runStateResetCmd_stat_error c w info e s1 hstat, hne]
    rfl
  · intro herr hforce choice e s2 hprompt
    subst herr
    rw [runStateResetCmd_prompt c w info s1 s2 choice (some e) hstat hforce hprompt]
    simp
  · intro herr hforce e hrm
    subst herr
    rw [runStateResetCmd_force c w info s1 hstat hforce, hrm]
  · intro herr hforce e s2 hprompt hrm
    subst herr
    rw [runStateResetCmd_prompt c w info s1 s2 "yes" none hstat hforce hprompt]
    simp [hrm]

/-- C13 on the example filesystem: `Stat` of `/root` fails with a permission error, which is
returned without a prompt and without `RemoveAll`. -/
theorem runStateResetCmd_errors_witness :
    memSystem.Stat "/root" memFS =
        ((none, some (GoError.other "permission denied")), memFS) ∧
      (memConfig false "/root" ("yes", none)).runStateResetCmd memCmdWorld =
        (some (GoError.other "permission denied"),
          ⟨⟨memFS, [SystemCall.Stat "/root"]⟩, []⟩) :=
  ⟨by decide,
    (runStateResetCmd_errors (memConfig false "/root" ("yes", none)) memCmdWorld none
      (some (GoError.other "permission denied")) memFS (by decide)).1
      (GoError.other "permission denied") rfl (by decide)⟩

end Chezmoi

/-! ## The persistent state commands -/

namespace Chezmoi

/-- What `Set` stores: the new value under its key, every other key as before. -/
theorem PersistentState.lookup_Set (ps : PersistentState) (bucket key value b k : List UInt8) :
    (ps.Set bucket key value).2.lookup b k =
      if b = bucket ∧ k = key then some value else ps.lookup b k := by
  unfold PersistentState.Set PersistentState.lookup
  by_cases hb : b = bucket
  · subst hb
    by_cases hk : k = key
    · subst hk
      simp
    · simp only [AList.lookup_insert, Option.some_bind, AList.lookup_insert_ne hk, hk,
        and_false, if_false]
      cases ps.buckets.lookup b <;> simp
  · simp [AList.lookup_insert_ne hb, hb]

/-- What `Delete` leaves: nothing under its key, every other key as before. -/
theorem PersistentState.lookup_Delete (ps : PersistentState) (bucket key b k : List UInt8) :
    (ps.Delete bucket key).2.lookup b k =
      if b = bucket ∧ k = key then none else ps.lookup b k := by
  unfold PersistentState.Delete PersistentState.lookup
  cases hl : ps.buckets.lookup bucket with
  | none =>
    by_cases hb : b = bucket
    · subst hb
      simp [hl]
    · simp [hb]
  | some bk =>
    by_cases hb : b = bucket
    · subst hb
      by_cases hk : k = key
      · subst hk
        simp
      · simp [hl, hk, AList.lookup_erase_ne hk]
    · simp [AList.lookup_insert_ne hb, hb]

end Chezmoi

namespace Chezmoi

/-- The entries of the dump are exactly the stored values. -/
theorem PersistentState.mem_Data (ps : PersistentState) (b k v : List UInt8) :
    (∃ bk : GoMap (List UInt8) (List UInt8),
        (⟨b, bk⟩ : Sigma fun _ : List UInt8 => GoMap (List UInt8) (List UInt8)) ∈
          ps.Data.1.entries ∧
        (⟨k, v⟩ : Sigma fun _ : List UInt8 => List UInt8) ∈ bk.entries) ↔
      ps.lookup b k = some v := by
  unfold PersistentState.Data PersistentState.lookup
  constructor
  · rintro ⟨bk, hb, hk⟩
    rw [Option.mem_def.mp (AList.mem_lookup_iff.mpr hb)]
    exact Option.mem_def.mp (AList.mem_lookup_iff.mpr hk)
  · intro h
    cases hl : ps.buckets.lookup b with
    | none => simp [hl] at h
    | some bk =>
      rw [hl] at h
      exact ⟨bk, AList.mem_lookup_iff.mp (Option.mem_def.mpr hl),
        AList.mem_lookup_iff.mp (Option.mem_def.mpr h)⟩

/-- C14. Round trip through the state commands, the persistent store being a two-level map
bucket → key → value: `runStateSetCmd` with `(b, k, v)` succeeds, and `runStateGetCmd` with
`(b, k)` then writes exactly the bytes of `v` to the output; after `runStateDeleteCmd` with
`(b, k)`, `Get` yields the not-found result of the store, which `runStateGetCmd` returns as its
error or, when it is no error, writes as its value; `runStateDataCmd` marshals the dump of the
store, whose entries are exactly the values currently set; and the set and the delete leave
every other key of `b` and every key of another bucket as it was. -/
theorem state_commands_round_trip {σ : Type} (c : Config σ) (w : StoreWorld) (b k v : String)
    (hset : c.state.set = ⟨b, k, v⟩) (hget : c.state.get = ⟨b, k⟩)
    (hdelete : c.state.delete = ⟨b, k⟩) :
    (c.runStateSetCmd w).1 = none ∧
    c.runStateGetCmd (c.runStateSetCmd w).2 =
      (none, ⟨(c.runStateSetCmd w).2.persistentState, w.stdout ++ bytesOfString v⟩) ∧
    (c.runStateDeleteCmd (c.runStateSetCmd w).2).1 = none ∧
    (c.runStateDeleteCmd (c.runStateSetCmd w).2).2.persistentState.Get (bytesOfString b)
        (bytesOfString k) = w.persistentState.notFound ∧
    c.runStateGetCmd (c.runStateDeleteCmd (c.runStateSetCmd w).2).2 =
      (match w.persistentState.notFound with
        | (_, some err) => (some err, (c.runStateDeleteCmd (c.runStateSetCmd w).2).2)
        | (value, none) =>
          (none, ⟨(c.runStateDeleteCmd (c.runStateSetCmd w).2).2.persistentState,
            w.stdout ++ value⟩)) ∧
    (∀ w1 : StoreWorld,
      c.runStateDataCmd w1 =
          ((c.marshal c.state.data.format w1.persistentState.Data.1 w1.stdout).1,
            ⟨w1.persistentState,
              (c.marshal c.state.data.format w1.persistentState.Data.1 w1.stdout).2⟩) ∧
        ∀ b1 k1 v1 : List UInt8,
          (∃ bk : GoMap (List UInt8) (List UInt8),
            (⟨b1, bk⟩ : Sigma fun _ : List UInt8 => GoMap (List UInt8) (List UInt8)) ∈
              w1.persistentState.Data.1.entries ∧
            (⟨k1, v1⟩ : Sigma fun _ : List UInt8 => List UInt8) ∈ bk.entries) ↔
          w1.persistentState.lookup b1 k1 = some v1) ∧
    (∀ b1 k1 : List UInt8,
      (c.runStateSetCmd w).2.persistentState.lookup b1 k1 =
        if b1 = bytesOfString b ∧ k1 = bytesOfString k then some (bytesOfString v)
        else w.persistentState.lookup b1 k1) ∧
    (∀ b1 k1 : List UInt8,
      (c.runStateDeleteCmd (c.runStateSetCmd w).2).2.persistentState.lookup b1 k1 =
        if b1 = bytesOfString b ∧ k1 = bytesOfString k then none
        else w.persistentState.lookup b1 k1) := by
  have hS : ∀ b1 k1 : List UInt8,
      (c.runStateSetCmd w).2.persistentState.lookup b1 k1 =
        if b1 = bytesOfString b ∧ k1 = bytesOfString k then some (bytesOfString v)
        else w.persistentState.lookup b1 k1 := by
    intro b1 k1
    simp only [Config.runStateSetCmd, hset, PersistentState.lookup_Set]
  have hD : ∀ b1 k1 : List UInt8,
      (c.runStateDeleteCmd (c.runStateSetCmd w).2).2.persistentState.lookup b1 k1 =
        if b1 = bytesOfString b ∧ k1 = bytesOfString k then none
        else w.persistentState.lookup b1 k1 := by
    intro b1 k1
    simp only [Config.runStateDeleteCmd, hdelete, PersistentState.lookup_Delete]
    rw [hS]
    split <;> rfl
  have hout : (c.runStateSetCmd w).2.stdout = w.stdout := rfl
  have hout2 : (c.runStateDeleteCmd (c.runStateSetCmd w).2).2.stdout = w.stdout := rfl
  have hnf : (c.runStateDeleteCmd (c.runStateSetCmd w).2).2.persistentState.notFound =
      w.persistentState.notFound := by
    simp only [Config.runStateDeleteCmd, Config.runStateSetCmd, PersistentState.Delete,
      PersistentState.Set]
    split <;> rfl
  have hG : (c.runStateDeleteCmd (c.runStateSetCmd w).2).2.persistentState.Get
      (bytesOfString b) (bytesOfString k) = w.persistentState.notFound := by
    unfold PersistentState.Get
    rw [hD]
    simp [hnf]
  refine ⟨rfl, ?_, ?_, hG, ?_, ?_, hS, hD⟩
  · unfold Config.runStateGetCmd PersistentState.Get
    rw [hget]
    simp only [hS, and_self, if_true, Config.writeOutput, hout]
  · simp only [Config.runStateDeleteCmd, PersistentState.Delete]
    split <;> rfl
  · unfold Config.runStateGetCmd
    rw [hget]
    simp only [hG]
    rcases hnfv : w.persistentState.notFound with ⟨value, _ | e⟩
    · simp only [Config.writeOutput, hout2]
    · rfl
  · intro w1
    exact ⟨rfl, fun b1 k1 v1 => PersistentState.mem_Data w1.persistentState b1 k1 v1⟩

end Chezmoi

namespace Chezmoi

/-- C14 on the example configuration, whose flags name the bucket `b`, the key `k` and the
value `v`, over an empty store: the get after the set writes `v`, and the get after the delete
returns the not-found error. -/
theorem state_commands_round_trip_witness :
    (memConfig false "/f" ("no", none)).state.set = ⟨"b", "k", "v"⟩ ∧
      (memConfig false "/f" ("no", none)).state.get = ⟨"b", "k"⟩ ∧
      (memConfig false "/f" ("no", none)).state.delete = ⟨"b", "k"⟩ ∧
      ((memConfig false "/f" ("no", none)).runStateGetCmd
        ((memConfig false "/f" ("no", none)).runStateSetCmd memStoreWorld).2).1 = none ∧
      ((memConfig false "/f" ("no", none)).runStateGetCmd
        ((memConfig false "/f" ("no", none)).runStateSetCmd memStoreWorld).2).2.stdout =
        [118] ∧
      ((memConfig false "/f" ("no", none)).runStateGetCmd
        ((memConfig false "/f" ("no", none)).runStateDeleteCmd
          ((memConfig false "/f" ("no", none)).runStateSetCmd memStoreWorld).2).2).1 =
        some (GoError.other "key not found") := by
  have h := state_commands_round_trip (memConfig false "/f" ("no", none)) memStoreWorld
    "b" "k" "v" rfl rfl rfl
  refine ⟨rfl, rfl, rfl, ?_, ?_, ?_⟩
  · rw [h.2.1]
  · rw [h.2.1]
    decide
  · rw [h.2.2.2.2.1]
    rfl

end Chezmoi

/-! ## `parseBool` -/

namespace Chezmoi

/-- The strings `strconv.ParseBool` accepts. -/
theorem strconv.ParseBool_accepts (str : String) :
    (strconv.ParseBool str).2 = none ↔
      str ∈ ["1", "t", "T", "TRUE", "true", "True", "0", "f", "F", "FALSE", "false",
        "False"] := by
  unfold strconv.ParseBool
  simp only [List.mem_cons, List.mem_singleton, List.not_mem_nil, or_false]
  split
  · rename_i h
    refine ⟨fun _ => ?_, fun _ => rfl⟩
    rcases h with h | h | h | h | h | h <;> simp [h]
  · rename_i h
    split
    · rename_i h2
      refine ⟨fun _ => ?_, fun _ => rfl⟩
      rcases h2 with h2 | h2 | h2 | h2 | h2 | h2 <;> simp [h2]
    · rename_i h2
      refine ⟨fun hc => by simp at hc, fun hc => ?_⟩
      exfalso
      rcases hc with hc | hc | hc | hc | hc | hc | hc
      · exact h (Or.inl hc)
      · exact h (Or.inr (Or.inl hc))
      · exact h (Or.inr (Or.inr (Or.inl hc)))
      · exact h (Or.inr (Or.inr (Or.inr (Or.inl hc))))
      · exact h (Or.inr (Or.inr (Or.inr (Or.inr (Or.inl hc)))))
      · exact h (Or.inr (Or.inr (Or.inr (Or.inr (Or.inr hc)))))
      · exact h2 hc

/-- C15. `parseBool` extends `strconv.ParseBool`: on each of the strings `strconv.ParseBool`
accepts (1, t, T, TRUE, true, True, 0, f, F, FALSE, false, False) it returns the same boolean
with a nil error; it returns `(true, nil)` on each of on, ON, y, Y, yes, YES and `(false, nil)`
on each of n, N, no, NO, off, OFF. -/
theorem parseBool_extends (t : CaseRanges) :
    (∀ s ∈ ["1", "t", "T", "TRUE", "true", "True"],
      strconv.ParseBool s = (true, none) ∧ parseBool t s = (true, none)) ∧
    (∀ s ∈ ["0", "f", "F", "FALSE", "false", "False"],
      strconv.ParseBool s = (false, none) ∧ parseBool t s = (false, none)) ∧
    (∀ s ∈ ["on", "ON", "y", "Y", "yes", "YES"], parseBool t s = (true, none)) ∧
    (∀ s ∈ ["n", "N", "no", "NO", "off", "OFF"], parseBool t s = (false, none)) := by
  refine ⟨?_, ?_, ?_, ?_⟩
  · intro s hs
    simp only [List.mem_cons, List.mem_singleton, List.not_mem_nil, or_false] at hs
    rcases hs with rfl | rfl | rfl | rfl | rfl | rfl <;> exact ⟨rfl, rfl⟩
  · intro s hs
    simp only [List.mem_cons, List.mem_singleton, List.not_mem_nil, or_false] at hs
    rcases hs with rfl | rfl | rfl | rfl | rfl | rfl <;> exact ⟨rfl, rfl⟩
  · intro s hs
    simp only [List.mem_cons, List.mem_singleton, List.not_mem_nil, or_false] at hs
    rcases hs with rfl | rfl | rfl | rfl | rfl | rfl <;> rfl
  · intro s hs
    simp only [List.mem_cons, List.mem_singleton, List.not_mem_nil, or_false] at hs
    rcases hs with rfl | rfl | rfl | rfl | rfl | rfl <;> rfl

/-- C16, as stated, fails: `parseBool` succeeds on `Yes` and on ` no `, which are neither
accepted by `strconv.ParseBool` nor among on, ON, y, Y, yes, YES, n, N, no, NO, off, OFF. -/
theorem parseBool_exactly_counterexample :
    (∀ t : CaseRanges, parseBool t "Yes" = (true, none)) ∧
      (∀ t : CaseRanges, parseBool t " no " = (false, none)) ∧
      (strconv.ParseBool "Yes").2 ≠ none ∧ (strconv.ParseBool " no ").2 ≠ none ∧
      "Yes" ∉ ["on", "ON", "y", "Y", "yes", "YES", "n", "N", "no", "NO", "off", "OFF"] ∧
      " no " ∉ ["on", "ON", "y", "Y", "yes", "YES", "n", "N", "no", "NO", "off", "OFF"] :=
  ⟨fun _ => rfl, fun _ => rfl, by decide, by decide, by decide, by decide⟩

/-- C16, amended. `parseBool` succeeds on exactly the strings that `strconv.ParseBool` accepts
together with the strings that, once their leading and trailing white space is trimmed and
they are lower-cased, are one of n, no, off, on, y, yes; on every other string it returns the
error of `strconv.ParseBool`. -/
theorem parseBool_exactly (t : CaseRanges) (s : String) :
    ((parseBool t s).2 = none ↔
      s ∈ ["1", "t", "T", "TRUE", "true", "True", "0", "f", "F", "FALSE", "false",
          "False"] ∨
        strings.ToLower t (strings.TrimSpace s) ∈ ["n", "no", "off", "on", "y", "yes"]) ∧
      ((parseBool t s).2 ≠ none → parseBool t s = strconv.ParseBool s) := by
  rw [← strconv.ParseBool_accepts]
  unfold parseBool
  simp only [List.mem_cons, List.mem_singleton, List.not_mem_nil, or_false]
  split
  · rename_i h
    refine ⟨⟨fun _ => Or.inr ?_, fun _ => rfl⟩, fun hc => absurd rfl hc⟩
    rcases h with h | h | h
    · exact Or.inl h
    · exact Or.inr (Or.inl h)
    · exact Or.inr (Or.inr (Or.inl h))
  · rename_i h
    split
    · rename_i h2
      refine ⟨⟨fun _ => Or.inr ?_, fun _ => rfl⟩, fun hc => absurd rfl hc⟩
      rcases h2 with h2 | h2 | h2
      · exact Or.inr (Or.inr (Or.inr (Or.inl h2)))
      · exact Or.inr (Or.inr (Or.inr (Or.inr (Or.inl h2))))
      · exact Or.inr (Or.inr (Or.inr (Or.inr (Or.inr h2))))
    · rename_i h2
      refine ⟨⟨fun hp => Or.inl hp, fun hp => ?_⟩, fun _ => rfl⟩
      rcases hp with hp | hp
      · exact hp
      · exfalso
        rcases hp with hp | hp | hp | hp | hp | hp
        · exact h (Or.inl hp)
        · exact h (Or.inr (Or.inl hp))
        · exact h (Or.inr (Or.inr hp))
        · exact h2 (Or.inl hp)
        · exact h2 (Or.inr (Or.inl hp))
        · exact h2 (Or.inr (Or.inr hp))

end Chezmoi

/-! ## `uniqueAbbreviations` -/

namespace Chezmoi

/-- Appending under one abbreviation extends the values recorded under it and no other. -/
theorem lookup_appendAbbreviation (m : GoMap (List UInt8) (List (List UInt8)))
    (a v k : List UInt8) :
    ((appendAbbreviation m a v).lookup k).getD [] =
      (m.lookup k).getD [] ++ (if k = a then [v] else []) := by
  unfold appendAbbreviation
  by_cases h : k = a
  · subst h
    simp
  · simp [AList.lookup_insert_ne h, h]

/-- The abbreviations of a value are its non-empty leading segments. -/
theorem exists_take_iff (value k : List UInt8) :
    (∃ i ∈ List.range' 1 value.length, value.take i = k) ↔ k ≠ [] ∧ k <+: value := by
  constructor
  · rintro ⟨i, hi, rfl⟩
    rw [List.mem_range'_1] at hi
    refine ⟨?_, List.take_prefix i value⟩
    intro h
    have hl := congrArg List.length h
    simp only [List.length_take, List.length_nil] at hl
    omega
  · rintro ⟨hne, hp⟩
    refine ⟨k.length, ?_, (List.prefix_iff_eq_take.mp hp).symm⟩
    rw [List.mem_range'_1]
    have h1 : 0 < k.length := List.length_pos.mpr hne
    have h2 := hp.length_le
    omega

/-- The inner loop over a list of distinct lengths records the value once under each of the
corresponding leading segments. -/
theorem lookup_foldl_appendAbbreviation (value k : List UInt8) (is : List Nat) :
    is.Nodup → (∀ i ∈ is, i ≤ value.length) →
    ∀ m : GoMap (List UInt8) (List (List UInt8)),
      ((is.foldl (fun m i => appendAbbreviation m (value.take i) value) m).lookup k).getD [] =
        (m.lookup k).getD [] ++ (if ∃ i ∈ is, value.take i = k then [value] else []) := by
  induction is with
  | nil => intro _ _ m; simp
  | cons i is ih =>
    intro hnd hle m
    rw [List.nodup_cons] at hnd
    rw [List.foldl_cons, ih hnd.2 (fun j hj => hle j (List.mem_cons_of_mem _ hj)),
      lookup_appendAbbreviation, List.append_assoc]
    congr 1
    by_cases hk : k = value.take i
    · have hno : ¬ ∃ j ∈ is, value.take j = k := by
        rintro ⟨j, hj, hjk⟩
        have hl := congrArg List.length (hjk.trans hk)
        simp only [List.length_take] at hl
        have h1 := hle j (List.mem_cons_of_mem _ hj)
        have h2 := hle i (List.mem_cons_self _ _)
        have : j = i := by omega
        exact hnd.1 (this ▸ hj)
      have hyes : ∃ j ∈ i :: is, value.take j = k := ⟨i, List.mem_cons_self _ _, hk.symm⟩
      rw [if_pos hk, if_neg hno, if_pos hyes]
      rfl
    · rw [if_neg hk]
      have hiff : (∃ j ∈ i :: is, value.take j = k) ↔ ∃ j ∈ is, value.take j = k := by
        constructor
        · rintro ⟨j, hj, hjk⟩
          rcases List.mem_cons.mp hj with rfl | hj
          · exact absurd hjk.symm hk
          · exact ⟨j, hj, hjk⟩
        · rintro ⟨j, hj, hjk⟩
          exact ⟨j, List.mem_cons_of_mem _ hj, hjk⟩
      simp only [hiff, List.nil_append]

/-- The inner loop records the value once under each of its abbreviations. -/
theorem lookup_appendAbbreviations (m : GoMap (List UInt8) (List (List UInt8)))
    (value k : List UInt8) :
    ((appendAbbreviations m value).lookup k).getD [] =
      (m.lookup k).getD [] ++ (if k ≠ [] ∧ k <+: value then [value] else []) := by
  unfold appendAbbreviations
  rw [lookup_foldl_appendAbbreviation value k _ (List.nodup_range' 1 value.length)
    (fun i hi => by rw [List.mem_range'_1] at hi; omega) m]
  simp only [exists_take_iff]

/-- The first loop records under each key the values it abbreviates, in order. -/
theorem lookup_foldl_appendAbbreviations (values : List (List UInt8)) (k : List UInt8) :
    ∀ m : GoMap (List UInt8) (List (List UInt8)),
      ((values.foldl appendAbbreviations m).lookup k).getD [] =
        (m.lookup k).getD [] ++ values.filter (fun v => decide (k ≠ [] ∧ k <+: v)) := by
  induction values with
  | nil => intro m; simp
  | cons v vs ih =>
    intro m
    rw [List.foldl_cons, ih, lookup_appendAbbreviations, List.append_assoc]
    congr 1
    by_cases h : k ≠ [] ∧ k <+: v
    · rw [if_pos h, List.filter_cons_of_pos (by simpa using h)]
      rfl
    · rw [if_neg h, List.filter_cons_of_neg (by simpa using h)]
      rfl

end Chezmoi

namespace Chezmoi

/-- The body of the second loop sets its key when exactly one value is recorded. -/
theorem lookup_recordUnique (u : GoMap (List UInt8) (List UInt8)) (a k : List UInt8)
    (vs : List (List UInt8)) :
    (recordUnique u a vs).lookup k =
      if k = a then
        (match vs with
          | [v] => some v
          | _ => u.lookup k)
      else u.lookup k := by
  unfold recordUnique
  by_cases h : k = a
  · subst h
    rw [if_pos rfl]
    split <;> simp
  · rw [if_neg h]
    split
    · exact AList.lookup_insert_ne h
    · rfl

/-- The second loop, over entries with distinct keys, maps each key under which exactly one
value is recorded to that value. -/
theorem lookup_foldl_recordUnique (k : List UInt8)
    (l : List (Sigma fun _ : List UInt8 => List (List UInt8))) :
    l.NodupKeys → ∀ u : GoMap (List UInt8) (List UInt8),
      (l.foldl (fun u entry => recordUnique u entry.1 entry.2) u).lookup k =
        (match l.dlookup k with
          | some [v] => some v
          | _ => u.lookup k) := by
  induction l with
  | nil => intro _ u; rfl
  | cons e l ih =>
    intro hnd u
    rw [List.nodupKeys_cons] at hnd
    rw [List.foldl_cons, ih hnd.2, lookup_recordUnique]
    obtain ⟨a, vs⟩ := e
    by_cases h : k = a
    · subst h
      have hnone : l.dlookup k = none := List.dlookup_eq_none.mpr hnd.1
      rw [hnone, List.dlookup_cons_eq]
      simp only [if_true]
      split <;> simp_all
    · rw [List.dlookup_cons_ne _ _ h]
      simp only [if_neg h]

/-- The third loop maps every value to itself and leaves the other keys. -/
theorem lookup_foldl_insert_self (values : List (List UInt8)) (k : List UInt8) :
    ∀ u : GoMap (List UInt8) (List UInt8),
      (values.foldl (fun u value => u.insert value value) u).lookup k =
        if k ∈ values then some k else u.lookup k := by
  induction values using List.reverseRecOn with
  | nil => intro u; simp
  | append_singleton vs v ih =>
    intro u
    rw [List.foldl_append, List.foldl_cons, List.foldl_nil]
    by_cases h : k = v
    · subst h
      simp
    · rw [AList.lookup_insert_ne h, ih]
      simp [h]

/-- The map `uniqueAbbreviations` returns, key by key. -/
theorem lookup_uniqueAbbreviations (values : List (List UInt8)) (k : List UInt8) :
    (uniqueAbbreviations values).lookup k =
      if k ∈ values then some k
      else
        (match values.filter (fun v => decide (k ≠ [] ∧ k <+: v)) with
          | [v] => some v
          | _ => none) := by
  unfold uniqueAbbreviations
  rw [lookup_foldl_insert_self, lookup_foldl_recordUnique k _
    (values.foldl appendAbbreviations ∅).nodupKeys]
  have h := lookup_foldl_appendAbbreviations values k ∅
  simp only [AList.lookup_empty, Option.getD_none, List.nil_append] at h
  have hl : (values.foldl appendAbbreviations ∅).lookup k =
      (values.foldl appendAbbreviations ∅).entries.dlookup k := rfl
  rw [hl] at h
  by_cases hk : k ∈ values
  · simp only [if_pos hk]
  · simp only [if_neg hk]
    rw [← h]
    cases (values.foldl appendAbbreviations ∅).entries.dlookup k with
    | none => rfl
    | some vs =>
      simp only [Option.getD_some]
      split <;> split <;> simp_all

end Chezmoi

namespace Chezmoi

/-- The values a key abbreviates, when the key is not empty. -/
theorem filter_abbreviates (values : List (List UInt8)) (k : List UInt8) (hk : k ≠ []) :
    values.filter (fun v => decide (k ≠ [] ∧ k <+: v)) =
      values.filter (fun v => decide (k <+: v)) := by
  congr 1
  funext v
  simp [hk]

/-- The empty key abbreviates nothing. -/
theorem filter_abbreviates_nil (values : List (List UInt8)) :
    values.filter (fun v => decide (([] : List UInt8) ≠ [] ∧ [] <+: v)) = [] := by
  simp

/-- C17. Values always map to themselves: every element `v` of `values` (the empty string, a
duplicated element or an element that is a leading segment of another included) is a key of
`uniqueAbbreviations(values)` and is mapped to `v`; and every entry `k -> w` of the result has
`w` an element of `values` and `k` a leading segment of `w`. -/
theorem uniqueAbbreviations_values (values : List (List UInt8)) (v : List UInt8)
    (hv : v ∈ values) :
    (uniqueAbbreviations values).lookup v = some v ∧
      ∀ k w : List UInt8, (uniqueAbbreviations values).lookup k = some w →
        w ∈ values ∧ k <+: w := by
  refine ⟨by rw [lookup_uniqueAbbreviations, if_pos hv], ?_⟩
  intro k w hkw
  rw [lookup_uniqueAbbreviations] at hkw
  by_cases hk : k ∈ values
  · rw [if_pos hk] at hkw
    cases hkw
    exact ⟨hk, List.prefix_refl k⟩
  · rw [if_neg hk] at hkw
    split at hkw
    · rename_i u hu
      cases hkw
      have hmem : w ∈ values.filter (fun v => decide (k ≠ [] ∧ k <+: v)) := by
        rw [hu]
        exact List.mem_singleton_self w
      rw [List.mem_filter] at hmem
      exact ⟨hmem.1, (of_decide_eq_true hmem.2).2⟩
    · cases hkw

/-- C17 on `no`, `now`, `nope`, with the empty string and a duplicate: `no` maps to itself. -/
theorem uniqueAbbreviations_values_witness :
    bytesOfString "no" ∈
        [bytesOfString "no", bytesOfString "now", bytesOfString "nope", [],
          bytesOfString "now"] ∧
      (uniqueAbbreviations
        [bytesOfString "no", bytesOfString "now", bytesOfString "nope", [],
          bytesOfString "now"]).lookup (bytesOfString "no") = some (bytesOfString "no") :=
  ⟨by decide,
    (uniqueAbbreviations_values
      [bytesOfString "no", bytesOfString "now", bytesOfString "nope", [],
        bytesOfString "now"] (bytesOfString "no") (by decide)).1⟩

/-- C18. Uniqueness of abbreviations: a string `k` that is not an element of `values` is a key
of `uniqueAbbreviations(values)` if and only if `k` is non-empty and exactly one position of
`values` holds a string of which `k` is a leading segment; it is then mapped to that string;
and a `k` shared by two or more positions, be they two occurrences of one value, is no key. -/
theorem uniqueAbbreviations_unique (values : List (List UInt8)) (k : List UInt8)
    (hk : k ∉ values) :
    (((uniqueAbbreviations values).lookup k).isSome = true ↔
        k ≠ [] ∧ values.countP (fun v => decide (k <+: v)) = 1) ∧
      (k ≠ [] → values.countP (fun v => decide (k <+: v)) = 1 →
        ∀ v ∈ values, k <+: v → (uniqueAbbreviations values).lookup k = some v) ∧
      (2 ≤ values.countP (fun v => decide (k <+: v)) →
        (uniqueAbbreviations values).lookup k = none) := by
  rw [lookup_uniqueAbbreviations, if_neg hk]
  by_cases hne : k = []
  · subst hne
    rw [filter_abbreviates_nil]
    refine ⟨⟨fun h => by simp at h, fun h => absurd rfl h.1⟩, fun h => absurd rfl h,
      fun _ => rfl⟩
  · rw [filter_abbreviates values k hne, List.countP_eq_length_filter]
    refine ⟨⟨?_, ?_⟩, ?_, ?_⟩
    · intro h
      refine ⟨hne, ?_⟩
      split at h
      · rename_i u hu
        rw [hu]
        rfl
      · simp at h
    · rintro ⟨_, hlen⟩
      obtain ⟨u, hu⟩ := List.length_eq_one.mp hlen
      rw [hu]
      rfl
    · intro _ hlen v hv hp
      obtain ⟨u, hu⟩ := List.length_eq_one.mp hlen
      have hmem : v ∈ values.filter (fun v => decide (k <+: v)) :=
        List.mem_filter.mpr ⟨hv, decide_eq_true hp⟩
      rw [hu] at hmem ⊢
      rw [List.mem_singleton.mp hmem]
    · intro hlen
      split
      · rename_i u hu
        rw [hu] at hlen
        simp at hlen
      · rfl

/-- C18 on `yesNoAllQuit`: `y` is not a value, exactly one value starts with it, and it maps to
`yes`. -/
theorem uniqueAbbreviations_unique_witness :
    bytesOfString "y" ∉ yesNoAllQuit ∧
      bytesOfString "y" ≠ [] ∧
      yesNoAllQuit.countP (fun v => decide (bytesOfString "y" <+: v)) = 1 ∧
      (uniqueAbbreviations yesNoAllQuit).lookup (bytesOfString "y") =
        some (bytesOfString "yes") :=
  ⟨by decide, by decide, by decide,
    (uniqueAbbreviations_unique yesNoAllQuit (bytesOfString "y") (by decide)).2.1
      (by decide) (by decide) (bytesOfString "yes") (by decide) (by decide)⟩

end Chezmoi

/-! ## `validateKeys` -/

namespace Chezmoi

mutual

/-- What `validateKeys` returns: nil when every key matches, else the error of a key that does
not match. -/
theorem validateKeys_spec (re : String → Bool) (data : Data) :
    (validateKeys data re = none ↔ ∀ key ∈ data.keys, re key = true) ∧
      ∀ err : GoError, validateKeys data re = some err →
        ∃ key ∈ data.keys, re key = false ∧ err = GoError.other (key ++ ": invalid key") :=
  match data with
  | Data.scalar _ => by
    simp [validateKeys, Data.keys]
  | Data.map entries => by
    simpa only [validateKeys, Data.keys] using validateKeysMap_spec re entries
  | Data.slice items => by
    simpa only [validateKeys, Data.keys] using validateKeysSlice_spec re items

/-- What the loop over the entries of a map returns. -/
theorem validateKeysMap_spec (re : String → Bool) (entries : List (String × Data)) :
    (validateKeysMap entries re = none ↔ ∀ key ∈ Data.keysMap entries, re key = true) ∧
      ∀ err : GoError, validateKeysMap entries re = some err →
        ∃ key ∈ Data.keysMap entries,
          re key = false ∧ err = GoError.other (key ++ ": invalid key") :=
  match entries with
  | [] => by
    simp [validateKeysMap, Data.keysMap]
  | (key, value) :: rest => by
    have hv := validateKeys_spec re value
    have hr := validateKeysMap_spec re rest
    simp only [validateKeysMap, Data.keysMap, List.mem_cons, List.mem_append]
    cases hk : re key with
    | false =>
      refine ⟨⟨fun h => by simp at h, fun h => ?_⟩, fun err herr => ?_⟩
      · have := h key (Or.inl rfl)
        rw [hk] at this
        cases this
      · simp only [Bool.not_false, if_true, Option.some.injEq] at herr
        exact ⟨key, Or.inl rfl, hk, herr.symm⟩
    | true =>
      simp only [Bool.not_true, Bool.false_eq_true, if_false]
      cases hval : validateKeys value re with
      | some e =>
        refine ⟨⟨fun h => by simp at h, fun h => ?_⟩, fun err herr => ?_⟩
        · have hnone := hv.1.mpr (fun k hkm => h k (Or.inr (Or.inl hkm)))
          rw [hval] at hnone
          cases hnone
        · simp only [Option.some.injEq] at herr
          subst herr
          obtain ⟨k, hkm, hkf, hke⟩ := hv.2 e hval
          exact ⟨k, Or.inr (Or.inl hkm), hkf, hke⟩
      | none =>
        refine ⟨⟨fun h k hkm => ?_, fun h => ?_⟩, fun err herr => ?_⟩
        · rcases hkm with rfl | hkm | hkm
          · exact hk
          · exact hv.1.mp hval k hkm
          · exact hr.1.mp h k hkm
        · exact hr.1.mpr (fun k hkm => h k (Or.inr (Or.inr hkm)))
        · obtain ⟨k, hkm, hkf, hke⟩ := hr.2 err herr
          exact ⟨k, Or.inr (Or.inr hkm), hkf, hke⟩

/-- What the loop over the items of a slice returns. -/
theorem validateKeysSlice_spec (re : String → Bool) (items : List Data) :
    (validateKeysSlice items re = none ↔ ∀ key ∈ Data.keysSlice items, re key = true) ∧
      ∀ err : GoError, validateKeysSlice items re = some err →
        ∃ key ∈ Data.keysSlice items,
          re key = false ∧ err = GoError.other (key ++ ": invalid key") :=
  match items with
  | [] => by
    simp [validateKeysSlice, Data.keysSlice]
  | value :: rest => by
    have hv := validateKeys_spec re value
    have hr := validateKeysSlice_spec re rest
    simp only [validateKeysSlice, Data.keysSlice, List.mem_append]
    cases hval : validateKeys value re with
    | some e =>
      refine ⟨⟨fun h => by simp at h, fun h => ?_⟩, fun err herr => ?_⟩
      · have hnone := hv.1.mpr (fun k hkm => h k (Or.inl hkm))
        rw [hval] at hnone
        cases hnone
      · simp only [Option.some.injEq] at herr
        subst herr
        obtain ⟨k, hkm, hkf, hke⟩ := hv.2 e hval
        exact ⟨k, Or.inl hkm, hkf, hke⟩
    | none =>
      refine ⟨⟨fun h k hkm => ?_, fun h => ?_⟩, fun err herr => ?_⟩
      · rcases hkm with hkm | hkm
        · exact hv.1.mp hval k hkm
        · exact hr.1.mp h k hkm
      · exact hr.1.mpr (fun k hkm => h k (Or.inr hkm))
      · obtain ⟨k, hkm, hkf, hke⟩ := hr.2 err herr
        exact ⟨k, Or.inr hkm, hkf, hke⟩

end

/-- C19. For every data value built from `map[string]interface{}` nodes, `[]interface{}` nodes
and scalar leaves, nested to any depth, and every regular expression `re`: `validateKeys(data,
re)` returns nil if and only if every key of every map node anywhere in `data` matches `re`;
when it returns an error, the message of the error is `<key>: invalid key` for some key of
`data` that does not match `re`. The function is total: it returns on every data value. -/
theorem validateKeys_correct (re : String → Bool) (data : Data) :
    (validateKeys data re = none ↔ ∀ key ∈ data.keys, re key = true) ∧
      (∀ err : GoError, validateKeys data re = some err →
        ∃ key ∈ data.keys, re key = false ∧ err = GoError.other (key ++ ": invalid key")) ∧
      (validateKeys data re = none ∨ ∃ err : GoError, validateKeys data re = some err) := by
  refine ⟨(validateKeys_spec re data).1, (validateKeys_spec re data).2, ?_⟩
  cases validateKeys data re with
  | none => exact Or.inl rfl
  | some err => exact Or.inr ⟨err, rfl⟩

end Chezmoi

/-! ## `upperSnakeCaseToCamelCase` -/

namespace Chezmoi

/-- Splitting yields at least one piece. -/
theorem splitRunes_ne_nil (sep : Char) (runes : List Char) : splitRunes sep runes ≠ [] := by
  cases runes with
  | nil => simp [splitRunes]
  | cons r runes =>
    unfold splitRunes
    split
    · simp
    · split <;> simp

/-- No piece of a split holds the separator. -/
theorem not_mem_of_mem_splitRunes (sep : Char) (runes : List Char) :
    ∀ word ∈ splitRunes sep runes, sep ∉ word := by
  induction runes with
  | nil => simp [splitRunes]
  | cons r runes ih =>
    intro word hword
    unfold splitRunes at hword
    split at hword
    · rcases List.mem_cons.mp hword with rfl | hword
      · simp
      · exact ih word hword
    · rename_i hr
      split at hword
      · rename_i hnil
        exact absurd hnil (splitRunes_ne_nil sep runes)
      · rename_i w ws hws
        rcases List.mem_cons.mp hword with rfl | hword
        · intro hmem
          rcases List.mem_cons.mp hmem with h | h
          · exact hr h.symm
          · exact ih w (by rw [hws]; exact List.mem_cons_self _ _) h
        · exact ih word (by rw [hws]; exact List.mem_cons_of_mem _ hword)

/-- After the first word the loop treats every word alike. -/
theorem camelCaseWords_succ (t : CaseRanges) (words : List String) :
    ∀ i : Nat, camelCaseWords t (i + 1) words =
      words.map (fun word =>
        if word ∈ wellKnownAbbreviations then word
        else titleize t (strings.ToLower t word)) := by
  induction words with
  | nil => intro i; rfl
  | cons word words ih =>
    intro i
    by_cases h : word ∈ wellKnownAbbreviations
    · simp [camelCaseWords, ih, isWellKnownAbbreviation, h]
    · simp [camelCaseWords, ih, isWellKnownAbbreviation, h]

/-- An ASCII capital shifted to lower case is no underscore. -/
theorem ofNat_add_ne_underscore (n : Nat) (h1 : 0x41 ≤ n) (h2 : n ≤ 0x5A) :
    Char.ofNat (n + 0x20) ≠ '_' := by
  interval_cases n <;> decide

/-- An ASCII small letter shifted to upper case is no underscore. -/
theorem ofNat_sub_ne_underscore (n : Nat) (h1 : 0x61 ≤ n) (h2 : n ≤ 0x7A) :
    Char.ofNat (n - 0x20) ≠ '_' := by
  interval_cases n <;> decide

/-- Lower-casing makes no underscore, the table making none. -/
theorem ToLower_ne_underscore (t : CaseRanges)
    (ht : ∀ c : Char, 0x7F < c.toNat → t.lower c ≠ '_') (r : Char)
    (hr : r ≠ '_') : unicode.ToLower t r ≠ '_' := by
  unfold unicode.ToLower
  split
  · split
    · rename_i h
      exact ofNat_add_ne_underscore r.toNat h.1 h.2
    · exact hr
  · rename_i h
    exact ht r (by omega)

/-- Title-casing makes no underscore, the table making none. -/
theorem ToTitle_ne_underscore (t : CaseRanges)
    (ht : ∀ c : Char, 0x7F < c.toNat → t.title c ≠ '_') (r : Char)
    (hr : r ≠ '_') : unicode.ToTitle t r ≠ '_' := by
  unfold unicode.ToTitle
  split
  · split
    · rename_i h
      exact ofNat_sub_ne_underscore r.toNat h.1 h.2
    · exact hr
  · rename_i h
    exact ht r (by omega)

end Chezmoi

namespace Chezmoi

/-- Joining the pieces of a split with the separator gives the sequence back. -/
theorem intercalate_splitRunes (sep : Char) (runes : List Char) :
    List.intercalate [sep] (splitRunes sep runes) = runes := by
  induction runes with
  | nil => rfl
  | cons r runes ih =>
    unfold splitRunes
    split
    · rename_i hr
      cases hs : splitRunes sep runes with
      | nil => exact absurd hs (splitRunes_ne_nil sep runes)
      | cons w ws =>
        rw [hs] at ih
        simp only [List.intercalate, List.intersperse, List.flatten] at ih ⊢
        simp only [hr, List.nil_append, List.singleton_append, ih]
    · split
      · rename_i hnil
        exact absurd hnil (splitRunes_ne_nil sep runes)
      · rename_i w ws hws
        rw [hws] at ih
        cases ws with
        | nil =>
          simp only [List.intercalate, List.intersperse, List.flatten, List.append_nil] at ih ⊢
          rw [ih]
        | cons w2 ws =>
          simp only [List.intercalate, List.intersperse, List.flatten] at ih ⊢
          rw [← ih]
          rfl

/-- Lower-casing a word without underscore makes no underscore. -/
theorem ToLower_no_underscore (t : CaseRanges)
    (ht : ∀ c : Char, 0x7F < c.toNat → t.lower c ≠ '_') (word : String)
    (hw : '_' ∉ word.data) : '_' ∉ (strings.ToLower t word).data := by
  unfold strings.ToLower
  intro hmem
  obtain ⟨r, hr, hr2⟩ := List.mem_map.mp hmem
  exact ToLower_ne_underscore t ht r (fun h => hw (h ▸ hr)) hr2

/-- Titleizing a word without underscore makes no underscore. -/
theorem titleize_no_underscore (t : CaseRanges)
    (ht : ∀ c : Char, 0x7F < c.toNat → t.title c ≠ '_') (word : String)
    (hw : '_' ∉ word.data) : '_' ∉ (titleize t word).data := by
  unfold titleize
  split
  · exact hw
  · rename_i r runes hdata
    rw [hdata] at hw
    intro hmem
    rcases List.mem_cons.mp hmem with h | h
    · exact ToTitle_ne_underscore t ht r (fun h2 => hw (h2 ▸ List.mem_cons_self _ _)) h.symm
    · exact hw (List.mem_cons_of_mem _ h)

/-- The loop makes no underscore in words that have none. -/
theorem camelCaseWords_no_underscore (t : CaseRanges)
    (hl : ∀ c : Char, 0x7F < c.toNat → t.lower c ≠ '_')
    (ht : ∀ c : Char, 0x7F < c.toNat → t.title c ≠ '_') (words : List String) :
    (∀ word ∈ words, '_' ∉ word.data) →
    ∀ i : Nat, ∀ word ∈ camelCaseWords t i words, '_' ∉ word.data := by
  induction words with
  | nil => intro _ i word hword; simp [camelCaseWords] at hword
  | cons w ws ih =>
    intro hws i word hword
    unfold camelCaseWords at hword
    rcases List.mem_cons.mp hword with rfl | hword
    · have hw := hws w (List.mem_cons_self _ _)
      split
      · exact ToLower_no_underscore t hl w hw
      · split
        · exact titleize_no_underscore t ht _ (ToLower_no_underscore t hl w hw)
        · exact hw
    · exact ih (fun x hx => hws x (List.mem_cons_of_mem _ hx)) (i + 1) word hword

end Chezmoi

namespace Chezmoi

/-- C20. With `w0, w1, ..., wn` the pieces of `s` split at each `_` (no piece holds an
underscore, and the pieces joined by `_` are `s`), `upperSnakeCaseToCamelCase(s)` is the
concatenation of `lower(w0)` followed, for each `i ≥ 1`, by `wi` unchanged when `wi` is exactly
one of ANSI, CPE, ID, URL and otherwise by `lower(wi)` with its first rune title-cased. Hence the
first word is lower-cased even when it is a well-known abbreviation (`ID_LIKE` gives `idLike`,
`ID` gives `id`), a later well-known abbreviation keeps its capitals (`BUG_REPORT_URL` gives
`bugReportURL`, `VERSION_ID` gives `versionID`), and the result holds no underscore, the case
table of Go mapping no rune above ASCII to the underscore. -/
theorem upperSnakeCaseToCamelCase_words (t : CaseRanges) (s : String) :
    (∃ (w0 : String) (ws : List String),
      strings.Split s '_' = w0 :: ws ∧
      (∀ w ∈ w0 :: ws, '_' ∉ w.data) ∧
      List.intercalate ['_'] ((w0 :: ws).map String.data) = s.data ∧
      upperSnakeCaseToCamelCase t s =
        strings.Join (strings.ToLower t w0 ::
          ws.map (fun wi =>
            if wi ∈ ["ANSI", "CPE", "ID", "URL"] then wi
            else titleize t (strings.ToLower t wi)))) ∧
    upperSnakeCaseToCamelCase t "ID_LIKE" = "idLike" ∧
    upperSnakeCaseToCamelCase t "ID" = "id" ∧
    upperSnakeCaseToCamelCase t "BUG_REPORT_URL" = "bugReportURL" ∧
    upperSnakeCaseToCamelCase t "VERSION_ID" = "versionID" ∧
    ((∀ c : Char, 0x7F < c.toNat → t.lower c ≠ '_' ∧ t.title c ≠ '_') →
      '_' ∉ (upperSnakeCaseToCamelCase t s).data) := by
  have hno : ∀ w ∈ strings.Split s '_', '_' ∉ w.data := by
    intro w hw
    obtain ⟨l, hl, rfl⟩ := List.mem_map.mp hw
    exact not_mem_of_mem_splitRunes '_' s.data l hl
  have hjoin : List.intercalate ['_'] ((strings.Split s '_').map String.data) = s.data := by
    unfold strings.Split
    rw [List.map_map]
    have hid : (String.data ∘ String.mk) = id := rfl
    rw [hid, List.map_id]
    exact intercalate_splitRunes '_' s.data
  refine ⟨?_, rfl, rfl, rfl, rfl, ?_⟩
  · cases hsplit : strings.Split s '_' with
    | nil =>
      unfold strings.Split at hsplit
      exact absurd (List.map_eq_nil_iff.mp hsplit) (splitRunes_ne_nil '_' s.data)
    | cons w0 ws =>
      rw [hsplit] at hno hjoin
      refine ⟨w0, ws, rfl, hno, hjoin, ?_⟩
      unfold upperSnakeCaseToCamelCase
      rw [hsplit]
      simp only [camelCaseWords, if_true, camelCaseWords_succ]
      rfl
  · intro htable
    unfold upperSnakeCaseToCamelCase strings.Join
    intro hmem
    obtain ⟨l, hl, hl2⟩ := List.mem_flatten.mp hmem
    obtain ⟨word, hword, rfl⟩ := List.mem_map.mp hl
    exact camelCaseWords_no_underscore t (fun c hc => (htable c hc).1)
      (fun c hc => (htable c hc).2) _ hno 0 word hword hl2

end Chezmoi

namespace Chezmoi

/-- C20 on `PRETTY_NAME` with a case table that leaves the runes above ASCII alone: the table
maps no such rune to the underscore, and the result is `prettyName`, without underscore. -/
theorem upperSnakeCaseToCamelCase_words_witness :
    (∀ c : Char, 0x7F < c.toNat →
        plainCaseRanges.lower c ≠ '_' ∧ plainCaseRanges.title c ≠ '_') ∧
      upperSnakeCaseToCamelCase plainCaseRanges "PRETTY_NAME" = "prettyName" ∧
      '_' ∉ (upperSnakeCaseToCamelCase plainCaseRanges "PRETTY_NAME").data := by
  have hplain : ∀ c : Char, 0x7F < c.toNat →
      plainCaseRanges.lower c ≠ '_' ∧ plainCaseRanges.title c ≠ '_' := by
    intro c hc
    have hne : c ≠ '_' := by
      intro h
      subst h
      revert hc
      decide
    exact ⟨hne, hne⟩
  exact ⟨hplain, rfl,
    (upperSnakeCaseToCamelCase_words plainCaseRanges "PRETTY_NAME").2.2.2.2.2 hplain⟩

end Chezmoi
